import Mathlib

/-!
Verification development for a bidirectional MySQL ↔ Google Sheets sync
engine.  The Lean definitions below are a shallow embedding of the Python
sources:

* `backend/core/change_detector.py`   — `ChangeDetector.detect_changes`
* `backend/core/conflict_resolver.py` — `ConflictResolver.resolve_conflicts`
* `backend/core/sync_engine.py`       — `SyncEngine._sync_cycle`, `_apply_changes`
* `backend/clients/sheets_client.py`  — `SheetsClient.update_row_by_pk`

Cells of a table are loosely typed in the source (strings, numbers, or
pandas `NaN`); they are modelled by the inductive `Cell`.  A pandas
`DataFrame` is modelled by `Snapshot`: an ordered column list and a list
of rows, each row a list of cells aligned with the column list.  Fallible
Python code (raising exceptions) is modelled with `Except String`.
-/

set_option linter.unusedVariables false

namespace SheetSQL

/-- A loosely typed table cell: pandas `NaN`/`None` (`null`), a string, or a
number. -/
inductive Cell where
  | null
  | text (s : String)
  | num (n : Int)
  deriving DecidableEq, Repr, Inhabited

/-- Python `str()` / pandas `.astype(str)` on a cell.  `str(float('nan'))`
is `"nan"`. -/
def cellCast : Cell → String
  | .null => "nan"
  | .text s => s
  | .num n => toString n

/-- The detector's comparison projection:
`str(v) if pd.notna(v) else ''` — a null/missing cell compares as the
empty string (change_detector.py lines 95–96). -/
def cmpStr : Cell → String
  | .null => ""
  | c => cellCast c

/-- Python truthiness of a cell value.  Note `float('nan')` is truthy,
while `''` and `0` are falsy. -/
def cellTruthy : Cell → Bool
  | .null => true
  | .text s => !s.isEmpty
  | .num n => n != 0

/-- A table snapshot: the column list and rows of cells, each row aligned
positionally with the column list (a pandas `DataFrame`). -/
structure Snapshot where
  cols : List String
  rows : List (List Cell)
  deriving DecidableEq, Repr

/-- `DataFrame.empty`: true when either axis has length zero. -/
def Snapshot.isEmpty (s : Snapshot) : Bool :=
  s.rows.isEmpty || s.cols.isEmpty

/-- A `DataFrame` is rectangular: every row has one cell per column. -/
def Snapshot.WF (s : Snapshot) : Prop :=
  ∀ r ∈ s.rows, r.length = s.cols.length

/-- Index of the first occurrence of a column name in a column list
(`list.index` / label lookup). -/
def colIdx (cols : List String) (c : String) : Option Nat :=
  match cols with
  | [] => none
  | c₀ :: rest => if c₀ == c then some 0 else (colIdx rest c).map (· + 1)

/-- Cell of row `r` in column `c`, positionally via the column list.
A lookup past the end of a row is pandas `NaN` padding. -/
def cellAt (cols : List String) (r : List Cell) (c : String) : Cell :=
  match colIdx cols c with
  | some i => (r.get? i).getD .null
  | none => .null

/-- Partial variant: `none` models the `KeyError` a pandas `Series` raises
when indexed with an absent column label. -/
def cellAt? (cols : List String) (r : List Cell) (c : String) : Option Cell :=
  match colIdx cols c with
  | some i => some ((r.get? i).getD .null)
  | none => none

/-- The string-cast primary key of a row:
`df[pk_col].astype(str)` (change_detector.py line 62). -/
def rowPk (cols : List String) (pkc : String) (r : List Cell) : String :=
  cellCast (cellAt cols r pkc)

/-- `Operation` enum (backend/utils/types.py). -/
inductive Operation where
  | INSERT
  | UPDATE
  | DELETE
  deriving DecidableEq, Repr

/-- `Source` enum (backend/utils/types.py). -/
inductive Source where
  | sheets
  | mysql
  deriving DecidableEq, Repr

/-- The `Change` dataclass (backend/utils/types.py).  The unused
`timestamp: datetime` bookkeeping field (defaulted to `datetime.now` and
never read by the core) is omitted. -/
structure Change where
  operation : Operation
  primary_key_value : String
  source : Source
  data : List (String × Cell)
  deriving DecidableEq, Repr

/-- Deduplicate a key list (a Python `set` of strings; its iteration
order is unspecified in the source, so any fixed dedup order is a
faithful model). -/
def dedupKeys : List String → List String
  | [] => []
  | x :: xs => if xs.contains x then dedupKeys xs else x :: dedupKeys xs

/-- The string-cast PK set of a snapshot:
`set(df[pk_col].astype(str)) if not df.empty else set()`
(change_detector.py lines 62–63), as a duplicate-free list. -/
def snapPks (pkc : String) (s : Snapshot) : List String :=
  if s.isEmpty then [] else dedupKeys (s.rows.map (rowPk s.cols pkc))

/-- `df[df[pk_col].astype(str) == pk].iloc[0]`: the first row whose
string-cast PK equals `pk` (change_detector.py lines 78, 89–90). -/
def firstRowFor (pkc : String) (s : Snapshot) (pk : String) : List Cell :=
  (s.rows.find? (fun r => rowPk s.cols pkc r == pk)).getD []

/-- `row.to_dict()`: a row as a column-name-keyed mapping. -/
def rowToDict (cols : List String) (r : List Cell) : List (String × Cell) :=
  cols.zip r

/-- The per-column delta loop of `detect_changes` (lines 92–99): for each
column of the new snapshot, compare the string-cast values (null/missing
as `''`) and record the raw new value when they differ.  Indexing the old
row with a column label absent from the old snapshot is a `KeyError`. -/
def deltaCols (oldCols newCols : List String) (oldRow newRow : List Cell) :
    List String → Except String (List (String × Cell))
  | [] => .ok []
  | c :: cs =>
    match cellAt? oldCols oldRow c with
    | none => .error ("KeyError: " ++ c)
    | some ov =>
      let nv := cellAt newCols newRow c
      match deltaCols oldCols newCols oldRow newRow cs with
      | .error e => .error e
      | .ok rest => .ok (if cmpStr ov ≠ cmpStr nv then (c, nv) :: rest else rest)

/-- The UPDATE phase of `detect_changes` (lines 86–108): for each common
PK, compute the delta of the two first-occurrence rows and emit an UPDATE
only when the delta is non-empty. -/
def updatesFor (pkc : String) (old new : Snapshot) (src : Source) :
    List String → Except String (List Change)
  | [] => .ok []
  | pk :: rest =>
    match deltaCols old.cols new.cols (firstRowFor pkc old pk)
        (firstRowFor pkc new pk) new.cols with
    | .error e => .error e
    | .ok delta =>
      match updatesFor pkc old new src rest with
      | .error e => .error e
      | .ok more =>
        .ok (if delta.isEmpty then more
             else ⟨.UPDATE, pk, src, delta⟩ :: more)

/-- `deleted_pks = old_pks - new_pks`, each as a DELETE with empty
payload (change_detector.py lines 65–73). -/
def detectDeletes (pkc : String) (old new : Snapshot) (src : Source) : List Change :=
  ((snapPks pkc old).filter (fun k => !((snapPks pkc new).contains k))).map
    (fun k => (⟨.DELETE, k, src, []⟩ : Change))

/-- `inserted_pks = new_pks - old_pks`, each as an INSERT carrying the
full first-occurrence row (lines 75–84). -/
def detectInserts (pkc : String) (old new : Snapshot) (src : Source) : List Change :=
  ((snapPks pkc new).filter (fun k => !((snapPks pkc old).contains k))).map
    (fun k => (⟨.INSERT, k, src, rowToDict new.cols (firstRowFor pkc new k)⟩ : Change))

/-- `common_pks = old_pks & new_pks` (line 87). -/
def commonPks (pkc : String) (old new : Snapshot) : List String :=
  (snapPks pkc old).filter (fun k => (snapPks pkc new).contains k)

/-- `ChangeDetector.detect_changes` (change_detector.py lines 16–115).
Duplicate primary keys only produce a log warning in the source (lines
46–59); logging is not modelled for the detector. -/
def detect_changes (pkc : String) (old new : Snapshot) (src : Source) :
    Except String (List Change) :=
  if old.isEmpty && new.isEmpty then .ok []
  else if !old.isEmpty && !(old.cols.contains pkc) then
    .error ("Primary key column '" ++ pkc ++ "' not found in old DataFrame")
  else if !new.isEmpty && !(new.cols.contains pkc) then
    .error ("Primary key column '" ++ pkc ++ "' not found in new DataFrame")
  else
    match updatesFor pkc old new src (commonPks pkc old new) with
    | .error e => .error e
    | .ok ups => .ok (detectDeletes pkc old new src ++ detectInserts pkc old new src ++ ups)

/-! ## Timestamp parsing (`ConflictResolver._parse_timestamp`)

The resolver tries the formats `%Y-%m-%d %H:%M:%S`, `%Y-%m-%d %H:%M:%S.%f`
and their `T`-separated variants via `datetime.strptime`.  Python's
`_strptime` matches `%Y` as exactly four digits, `%m`/`%d`/`%H`/`%M`/`%S`
as one or two digits within range, `%f` as one to six digits; a space in
the format matches a run of whitespace, letters match case-insensitively,
and the `datetime` constructor additionally validates the calendar day
(and rejects leap seconds, so an in-regex `%S` of 60 or 61 still fails).
The four formats have disjoint domains, so they are folded into one
parser. -/

/-- A parsed `datetime` value. -/
structure DateTime where
  year : Nat
  month : Nat
  day : Nat
  hour : Nat
  minute : Nat
  second : Nat
  usec : Nat
  deriving DecidableEq, Repr

/-- Gregorian leap year. -/
def isLeap (y : Nat) : Bool :=
  y % 4 == 0 && (y % 100 != 0 || y % 400 == 0)

/-- Number of days in a month, as validated by `datetime.__new__`. -/
def daysInMonth (y m : Nat) : Nat :=
  if m == 2 then (if isLeap y then 29 else 28)
  else if m == 4 || m == 6 || m == 9 || m == 11 then 30
  else 31

/-- Greedily take leading decimal digits. -/
def takeDigits : List Char → List Char × List Char
  | [] => ([], [])
  | c :: cs =>
    if c.isDigit then
      let (d, r) := takeDigits cs
      (c :: d, r)
    else ([], c :: cs)

/-- Numeric value of a digit string. -/
def digitsToNat (ds : List Char) : Nat :=
  ds.foldl (fun a c => a * 10 + (c.toNat - 48)) 0

/-- Parse a one-or-two digit field whose value must lie in `[lo, hi]`;
returns the value and the remaining input. -/
def parseNum2 (lo hi : Nat) (cs : List Char) : Option (Nat × List Char) :=
  let (ds, rest) := takeDigits cs
  if ds.length == 1 || ds.length == 2 then
    let v := digitsToNat ds
    if lo ≤ v ∧ v ≤ hi then some (v, rest) else none
  else none

/-- Parse the final seconds-and-fraction part: one-or-two digit seconds
`≤ 59`, optionally `.` plus one to six fractional digits, then end of
input.  Returns `(seconds, microseconds)`. -/
def parseSecFrac (cs : List Char) : Option (Nat × Nat) :=
  let (ds, rest) := takeDigits cs
  if ds.length == 1 || ds.length == 2 then
    let v := digitsToNat ds
    if v ≤ 59 then
      match rest with
      | [] => some (v, 0)
      | '.' :: fs =>
        let (fd, rest') := takeDigits fs
        if 1 ≤ fd.length ∧ fd.length ≤ 6 ∧ rest'.isEmpty then
          some (v, digitsToNat fd * 10 ^ (6 - fd.length))
        else none
      | _ => none
    else none
  else none

/-- `ConflictResolver._parse_timestamp` (conflict_resolver.py lines
103–119): `None` models the `ValueError` raised when no format matches. -/
def parse_timestamp (s : String) : Option DateTime :=
  let cs := s.toList
  let (yds, r1) := takeDigits cs
  if yds.length == 4 && 1 ≤ digitsToNat yds then
    let y := digitsToNat yds
    match r1 with
    | '-' :: r2 =>
      match parseNum2 1 12 r2 with
      | some (m, '-' :: r3) =>
        match parseNum2 1 31 r3 with
        | some (d, sep :: r4) =>
          if d ≤ daysInMonth y m then
            -- the format's `' '` matches a whitespace run; `T` is matched
            -- case-insensitively
            let r5? : Option (List Char) :=
              if sep == 'T' || sep == 't' then some r4
              else if sep.isWhitespace then some (r4.dropWhile (·.isWhitespace))
              else none
            match r5? with
            | none => none
            | some r5 =>
              match parseNum2 0 23 r5 with
              | some (hh, ':' :: r6) =>
                match parseNum2 0 59 r6 with
                | some (mi, ':' :: r7) =>
                  match parseSecFrac r7 with
                  | none => none
                  | some (ss, us) => some ⟨y, m, d, hh, mi, ss, us⟩
                | _ => none
              | _ => none
          else none
        | _ => none
      | _ => none
    | _ => none
  else none

/-- Strictly monotone encoding of a `DateTime` for comparisons: `datetime`
ordering is lexicographic on the seven fields. -/
def dtKey (t : DateTime) : Nat :=
  ((((((t.year * 16 + t.month) * 32 + t.day) * 32 + t.hour) * 64 +
    t.minute) * 64 + t.second) * 1000000) + t.usec

/-! ## Conflict resolver (`ConflictResolver.resolve_conflicts`) -/

/-- Log levels of the structured logger. -/
inductive LogLevel where
  | info
  | warn
  | error
  deriving DecidableEq, Repr

/-- A structured log record, reduced to its level and event tag. -/
structure LogEvent where
  level : LogLevel
  tag : String
  deriving DecidableEq, Repr

/-- Python `dict` assignment `m[k] = v`: replace in place when the key is
present, else append. -/
def dictInsert {α : Type} (m : List (String × α)) (k : String) (v : α) :
    List (String × α) :=
  if m.any (fun p => p.1 == k) then
    m.map (fun p => if p.1 == k then (k, v) else p)
  else m ++ [(k, v)]

/-- `{c.primary_key_value: c for c in changes}` (conflict_resolver.py
lines 28–29): a dict keyed by PK; a later change for the same PK replaces
the earlier value. -/
def indexByPk (cs : List Change) : List (String × Change) :=
  cs.foldl (fun m c => dictInsert m c.primary_key_value c) []

/-- Outcome of the per-conflict branch of `resolve_conflicts`. -/
inductive ConflictBranch where
  | missing
  | parsefail
  | decided (mysqlWins : Bool)
  deriving DecidableEq, Repr

/-- Which branch lines 53–96 of conflict_resolver.py take for one
conflicting pair: a falsy/absent timestamp on either side is `missing`;
an unparseable one is `parsefail` (the `except` handler); otherwise
last-write-wins with ties to MySQL. -/
def conflictBranch (tsc : String) (sc dc : Change) : ConflictBranch :=
  match sc.data.lookup tsc, dc.data.lookup tsc with
  | some scell, some dcell =>
    if !cellTruthy scell || !cellTruthy dcell then .missing
    else
      match parse_timestamp (cellCast scell), parse_timestamp (cellCast dcell) with
      | some sdt, some ddt => .decided (dtKey sdt ≤ dtKey ddt)
      | _, _ => .parsefail
  | _, _ => .missing

/-- Accumulator of the conflict loop: the two output lists (seeded with
the non-conflicting pass-through changes), the log so far, and the local
`conflicts_resolved` counter. -/
structure ResolveAcc where
  resolved_sheets : List Change
  resolved_mysql : List Change
  logs : List LogEvent
  conflicts_resolved : Nat
  deriving Repr

/-- One iteration of the conflict loop (lines 49–96). -/
def resolveStep (tsc : String) (acc : ResolveAcc)
    (t : String × Change × Change) : ResolveAcc :=
  let (_, sc, dc) := t
  match conflictBranch tsc sc dc with
  | .missing =>
    { acc with resolved_mysql := acc.resolved_mysql ++ [dc],
               logs := acc.logs ++ [⟨.warn, "conflict_missing_timestamp"⟩] }
  | .parsefail =>
    { acc with resolved_mysql := acc.resolved_mysql ++ [dc],
               logs := acc.logs ++ [⟨.error, "conflict_resolution_failed"⟩] }
  | .decided true =>
    { acc with resolved_mysql := acc.resolved_mysql ++ [dc],
               logs := acc.logs ++ [⟨.warn, "conflict_detected_lww"⟩],
               conflicts_resolved := acc.conflicts_resolved + 1 }
  | .decided false =>
    { acc with resolved_sheets := acc.resolved_sheets ++ [sc],
               logs := acc.logs ++ [⟨.warn, "conflict_detected_lww"⟩],
               conflicts_resolved := acc.conflicts_resolved + 1 }

/-- `ConflictResolver.resolve_conflicts` (conflict_resolver.py lines
15–100).  Non-conflicting changes pass through to the same-side output;
each conflicting PK contributes exactly one winner.  The returned record
also carries the emitted log events. -/
def resolve_conflicts (tsc : String) (sheets_changes mysql_changes : List Change) :
    ResolveAcc :=
  let sheets_by_pk := indexByPk sheets_changes
  let mysql_by_pk := indexByPk mysql_changes
  let nonConfSheets := (sheets_by_pk.filter
    (fun p => !(mysql_by_pk.any (fun q => q.1 == p.1)))).map Prod.snd
  let nonConfMysql := (mysql_by_pk.filter
    (fun p => !(sheets_by_pk.any (fun q => q.1 == p.1)))).map Prod.snd
  let confPairs := sheets_by_pk.filterMap
    (fun p => (mysql_by_pk.lookup p.1).map (fun dc => (p.1, p.2, dc)))
  let res := confPairs.foldl (resolveStep tsc)
    ⟨nonConfSheets, nonConfMysql, [], 0⟩
  { res with logs := res.logs ++ [⟨.info, "conflicts_summary"⟩] }

/-! ## Sync engine (`SyncEngine` in sync_engine.py) -/

/-- `datetime.now().strftime('%Y-%m-%d %H:%M:%S')`: zero-padded canonical
format. -/
def pad2 (n : Nat) : String :=
  if n < 10 then "0" ++ toString n else toString n

/-- Zero-pad a year to four digits (as `%Y` does for years ≥ 1000 and
`strftime` pads smaller ones with zeros). -/
def pad4 (n : Nat) : String :=
  if n < 10 then "000" ++ toString n
  else if n < 100 then "00" ++ toString n
  else if n < 1000 then "0" ++ toString n
  else toString n

/-- Format a wall-clock instant as `YYYY-MM-DD HH:MM:SS`. -/
def formatDateTime (t : DateTime) : String :=
  pad4 t.year ++ "-" ++ pad2 t.month ++ "-" ++ pad2 t.day ++ " " ++
    pad2 t.hour ++ ":" ++ pad2 t.minute ++ ":" ++ pad2 t.second

/-- The mutable `SyncStatus` plus the two baseline snapshots of
`SyncEngine` (sync_engine.py lines 15–22 and 56–58). -/
structure EngineState where
  mysql_snapshot : Option Snapshot
  sheets_snapshot : Option Snapshot
  is_running : Bool
  last_sync_time : Option DateTime
  sync_count : Nat
  last_error : Option String
  conflicts_resolved : Nat
  deriving DecidableEq, Repr

/-- An invocation of a peer client by `_apply_changes`. -/
inductive ClientCall where
  | insertRow (data : List (String × Cell))
  | updateRowByPk (pk : String) (data : List (String × Cell))
  | deleteRowByPk (pk : String)
  deriving DecidableEq, Repr

/-- The external world one sync cycle interacts with: fetch results,
per-call apply outcomes of each peer client, and the wall clock. -/
structure Env where
  fetch_mysql : Except String Snapshot
  fetch_sheets : Except String Snapshot
  apply_mysql : ClientCall → Except String Unit
  apply_sheets : ClientCall → Except String Unit
  now : DateTime

/-- Which client call `_apply_changes` makes for one change
(sync_engine.py lines 121–134).  Only the UPDATE branch stamps
`last_modified`, and only when the target is the spreadsheet and the
payload lacks that key. -/
def changeToCall (targetSheets : Bool) (now : DateTime) (ch : Change) : ClientCall :=
  match ch.operation with
  | .INSERT => .insertRow ch.data
  | .UPDATE =>
    let ud :=
      if targetSheets && !(ch.data.any (fun p => p.1 == "last_modified")) then
        dictInsert ch.data "last_modified" (.text (formatDateTime now))
      else ch.data
    .updateRowByPk ch.primary_key_value ud
  | .DELETE => .deleteRowByPk ch.primary_key_value

/-- `SyncEngine._apply_changes` (sync_engine.py lines 108–150): apply each
change in order; on the first client failure set `is_running := false` and
`last_error`, and re-raise.  Also returns the trace of client calls made
(the failing call included). -/
def applyChangesE (env : Env) (targetSheets : Bool) (st : EngineState) :
    List Change → EngineState × List ClientCall × Except String Unit
  | [] => (st, [], .ok ())
  | ch :: rest =>
    match (if targetSheets then env.apply_sheets else env.apply_mysql)
        (changeToCall targetSheets env.now ch) with
    | .ok _ =>
      ((applyChangesE env targetSheets st rest).1,
       changeToCall targetSheets env.now ch ::
         (applyChangesE env targetSheets st rest).2.1,
       (applyChangesE env targetSheets st rest).2.2)
    | .error e =>
      ({ st with is_running := false, last_error := some e },
       [changeToCall targetSheets env.now ch], .error e)

/-- The timestamp-enrichment pass of `_sync_cycle` (lines 180–193): for
INSERT/UPDATE changes, copy `last_modified` from the current snapshot row
with the same string-cast `id` into the payload. -/
def enrichChange (snap : Snapshot) (ch : Change) : Change :=
  match ch.operation with
  | .DELETE => ch
  | _ =>
    match snap.rows.find? (fun r => rowPk snap.cols "id" r == ch.primary_key_value) with
    | some r =>
      if snap.cols.contains "last_modified" then
        { ch with data := dictInsert ch.data "last_modified" (cellAt snap.cols r "last_modified") }
      else ch
    | none => ch

/-- Mark the engine stopped with an error, as both the `_apply_changes`
and `_sync_cycle` exception handlers do. -/
def failState (st : EngineState) (e : String) : EngineState :=
  { st with is_running := false, last_error := some e }

/-- The conflict-count the engine adds before applying
(sync_engine.py line 201). -/
def conflictsCount (sheets_changes mysql_changes : List Change) : Nat :=
  sheets_changes.length + mysql_changes.length
    - (resolve_conflicts "last_modified" sheets_changes mysql_changes).resolved_sheets.length
    - (resolve_conflicts "last_modified" sheets_changes mysql_changes).resolved_mysql.length

/-- Steps 4–6 of `_sync_cycle`: apply `resolved_sheets` to MySQL, then
`resolved_mysql` to Sheets, and on success install the fetched snapshots
as the new baselines and bump the cycle counters. -/
def applyBoth (env : Env) (cm cs : Snapshot) (st₁ : EngineState)
    (rs rm : List Change) : EngineState × List ClientCall × Except String Unit :=
  match (applyChangesE env false st₁ rs).2.2 with
  | .error e =>
    (failState (applyChangesE env false st₁ rs).1 e,
     (applyChangesE env false st₁ rs).2.1, .error e)
  | .ok _ =>
    match (applyChangesE env true (applyChangesE env false st₁ rs).1 rm).2.2 with
    | .error e =>
      (failState (applyChangesE env true (applyChangesE env false st₁ rs).1 rm).1 e,
       (applyChangesE env false st₁ rs).2.1 ++
         (applyChangesE env true (applyChangesE env false st₁ rs).1 rm).2.1,
       .error e)
    | .ok _ =>
      ({ (applyChangesE env true (applyChangesE env false st₁ rs).1 rm).1 with
          mysql_snapshot := some cm,
          sheets_snapshot := some cs,
          last_sync_time := some env.now,
          sync_count :=
            (applyChangesE env true (applyChangesE env false st₁ rs).1 rm).1.sync_count + 1 },
       (applyChangesE env false st₁ rs).2.1 ++
         (applyChangesE env true (applyChangesE env false st₁ rs).1 rm).2.1,
       .ok ())

/-- `SyncEngine._sync_cycle` (sync_engine.py lines 153–226): fetch both
peers, detect per side against the baselines, enrich with timestamps,
resolve, bump the conflict counter, apply, and only on success commit the
new baselines.  Every failure sets `is_running := false` / `last_error`
and propagates. -/
def syncCycle (env : Env) (st : EngineState) :
    EngineState × List ClientCall × Except String Unit :=
  match env.fetch_mysql with
  | .error e => (failState st e, [], .error e)
  | .ok current_mysql =>
    match env.fetch_sheets with
    | .error e => (failState st e, [], .error e)
    | .ok current_sheets =>
      match st.mysql_snapshot, st.sheets_snapshot with
      | none, _ => (failState st "AttributeError: NoneType", [], .error "AttributeError: NoneType")
      | _, none => (failState st "AttributeError: NoneType", [], .error "AttributeError: NoneType")
      | some mysql_base, some sheets_base =>
        match detect_changes "id" mysql_base current_mysql .mysql with
        | .error e => (failState st e, [], .error e)
        | .ok mysql_changes₀ =>
          match detect_changes "id" sheets_base current_sheets .sheets with
          | .error e => (failState st e, [], .error e)
          | .ok sheets_changes₀ =>
            applyBoth env current_mysql current_sheets
              { st with conflicts_resolved :=
                  st.conflicts_resolved + conflictsCount (sheets_changes₀.map (enrichChange current_sheets)) (mysql_changes₀.map (enrichChange current_mysql)) }
              (resolve_conflicts "last_modified"
                (sheets_changes₀.map (enrichChange current_sheets))
                (mysql_changes₀.map (enrichChange current_mysql))).resolved_sheets
              (resolve_conflicts "last_modified"
                (sheets_changes₀.map (enrichChange current_sheets))
                (mysql_changes₀.map (enrichChange current_mysql))).resolved_mysql

/-! ## Sheets client (`SheetsClient` in sheets_client.py)

The sheet is modelled as the raw value grid the Sheets API returns: a list
of rows of strings, row 0 being the header.  `get_all_data` builds a
`DataFrame` from the (unpadded) data rows, so a cell missing from a short
row reads back as `NaN`, whose `str()` is `"nan"`. -/

/-- Raw sheet cell read: `str(row[col])` with `NaN` for a missing cell. -/
def sheetCell (r : List String) (i : Nat) : String :=
  (r.get? i).getD "nan"

/-- `SheetsClient._find_row_by_pk` (sheets_client.py lines 110–125):
iterate the data rows; the first row whose string-cast PK cell equals the
requested key yields its 1-based sheet row number (header is row 1).
Raises when no row matches, or `KeyError` when the PK column is absent
from the header (only reachable with at least one data row). -/
def findRowAux (pkc : String) (headers : List String) (pk : String) :
    List (List String) → Nat → Except String Nat
  | [], _ => .error ("No row found with " ++ pkc ++ "=" ++ pk)
  | r :: rest, idx =>
    match colIdx headers pkc with
    | none => .error ("KeyError: " ++ pkc)
    | some i =>
      if sheetCell r i == pk then .ok (idx + 2)
      else findRowAux pkc headers pk rest (idx + 1)

/-- `_find_row_by_pk` over a raw value grid (header row first). -/
def find_row_by_pk (pkc : String) (grid : List (List String)) (pk : String) :
    Except String Nat :=
  findRowAux pkc (grid.headD []) pk grid.tail 0

/-- Write one cell of the grid, padding with empty cells as the Sheets
API does when the target lies beyond the current extent. -/
def setCellRow (r : List String) (i : Nat) (v : String) : List String :=
  if i < r.length then r.set i v
  else r ++ List.replicate (i - r.length) "" ++ [v]

/-- Write the cell at 0-based `(rowIdx, ci)` of the grid. -/
def setCellGrid (grid : List (List String)) (rowIdx ci : Nat) (v : String) :
    List (List String) :=
  if rowIdx < grid.length then
    grid.set rowIdx (setCellRow (grid.get! rowIdx) ci v)
  else
    grid ++ List.replicate (rowIdx - grid.length) [] ++ [setCellRow [] ci v]

/-- `SheetsClient.update_row_by_pk` (sheets_client.py lines 127–159):
locate the row by PK (propagating the lookup failure), read the header
from range `A1:Z1` (so at most 26 columns), and overwrite one cell per
payload column present in that header. -/
def update_row_by_pk (pkc : String) (grid : List (List String)) (pk : String)
    (data : List (String × String)) : Except String (List (List String)) :=
  match find_row_by_pk pkc grid pk with
  | .error e => .error e
  | .ok rowNum =>
    let headers := (grid.headD []).take 26
    .ok (data.foldl
      (fun g p =>
        match colIdx headers p.1 with
        | some ci => setCellGrid g (rowNum - 1) ci p.2
        | none => g)
      grid)

/-! ## Applying a change list to a snapshot (spec §8, detector soundness)

The notion of *applying* a detector change list back to the old snapshot
is the specification's, not the code's; the definitions below follow the
claim's words: insert the payload row for an INSERT, overwrite the delta
columns for an UPDATE, remove the row for a DELETE, and compare the
result to the new snapshot keyed by string-cast primary key with
string-cast equality per cell. -/

/-- Realise a payload mapping as a row aligned with the column list;
columns absent from the payload are null. -/
def payloadToRow (cols : List String) (payload : List (String × Cell)) : List Cell :=
  cols.map (fun c => (payload.lookup c).getD .null)

/-- Overwrite the payload's columns in a row (positionally via the column
list); payload columns absent from the column list are ignored. -/
def overwriteRow (cols : List String) (r : List Cell) (payload : List (String × Cell)) :
    List Cell :=
  payload.foldl
    (fun acc p =>
      match colIdx cols p.1 with
      | some i => acc.set i p.2
      | none => acc)
    r

/-- Apply a single change to a snapshot. -/
def applyChangeSpec (pkc : String) (s : Snapshot) (ch : Change) : Snapshot :=
  match ch.operation with
  | .DELETE =>
    { s with rows := s.rows.filter (fun r => rowPk s.cols pkc r ≠ ch.primary_key_value) }
  | .INSERT =>
    { s with rows := s.rows ++ [payloadToRow s.cols ch.data] }
  | .UPDATE =>
    { s with rows := s.rows.map (fun r =>
        if rowPk s.cols pkc r == ch.primary_key_value
        then overwriteRow s.cols r ch.data else r) }

/-- Apply a change list left to right. -/
def applyChangesSpec (pkc : String) (s : Snapshot) (chs : List Change) : Snapshot :=
  chs.foldl (applyChangeSpec pkc) s

/-- The string-cast view of a row over a column list (null/missing cells
as the empty string). -/
def rowView (cols : List String) (r : List Cell) : List String :=
  cols.map (fun c => cmpStr (cellAt cols r c))

/-- The string-cast view of the snapshot's row for a given string-cast
primary key (first occurrence wins for lookup, spec §3). -/
def pkView (pkc : String) (s : Snapshot) (pk : String) : Option (List String) :=
  (s.rows.find? (fun r => rowPk s.cols pkc r == pk)).map (rowView s.cols)

/-- Snapshot equality keyed by string-cast primary key, with string-cast
equality per cell. -/
def snapEquiv (pkc : String) (a b : Snapshot) : Prop :=
  a.cols = b.cols ∧ ∀ pk : String, pkView pkc a pk = pkView pkc b pk

/-! ## Resolver lemmas -/

/-- The branch's pass-through changes for one conflicting pair, sheet
side. -/
def sheetWinOf (tsc : String) (t : String × Change × Change) : Option Change :=
  match conflictBranch tsc t.2.1 t.2.2 with
  | .decided false => some t.2.1
  | _ => none

/-- The branch's pass-through changes for one conflicting pair, MySQL
side. -/
def mysqlWinOf (tsc : String) (t : String × Change × Change) : Option Change :=
  match conflictBranch tsc t.2.1 t.2.2 with
  | .decided false => none
  | _ => some t.2.2

/-- The log record one conflicting pair produces. -/
def logOf (tsc : String) (t : String × Change × Change) : LogEvent :=
  match conflictBranch tsc t.2.1 t.2.2 with
  | .missing => ⟨.warn, "conflict_missing_timestamp"⟩
  | .parsefail => ⟨.error, "conflict_resolution_failed"⟩
  | .decided _ => ⟨.warn, "conflict_detected_lww"⟩

/-- Whether the pair reaches the counted last-write-wins comparison. -/
def countedConflict (tsc : String) (t : String × Change × Change) : Bool :=
  match conflictBranch tsc t.2.1 t.2.2 with
  | .decided _ => true
  | _ => false

theorem foldl_resolveStep_rs (tsc : String) (ps : List (String × Change × Change)) :
    ∀ acc : ResolveAcc, (ps.foldl (resolveStep tsc) acc).resolved_sheets =
      acc.resolved_sheets ++ ps.filterMap (sheetWinOf tsc) := by
  induction ps with
  | nil => intro acc; simp
  | cons t ts ih =>
    intro acc
    simp only [List.foldl_cons, ih, List.filterMap_cons]
    obtain ⟨pk, sc, dc⟩ := t
    unfold resolveStep sheetWinOf
    rcases h : conflictBranch tsc sc dc with _ | _ | b
    · simp [h]
    · simp [h]
    · cases b <;> simp [h]

theorem foldl_resolveStep_rm (tsc : String) (ps : List (String × Change × Change)) :
    ∀ acc : ResolveAcc, (ps.foldl (resolveStep tsc) acc).resolved_mysql =
      acc.resolved_mysql ++ ps.filterMap (mysqlWinOf tsc) := by
  induction ps with
  | nil => intro acc; simp
  | cons t ts ih =>
    intro acc
    simp only [List.foldl_cons, ih, List.filterMap_cons]
    obtain ⟨pk, sc, dc⟩ := t
    unfold resolveStep mysqlWinOf
    rcases h : conflictBranch tsc sc dc with _ | _ | b
    · simp [h]
    · simp [h]
    · cases b <;> simp [h]

theorem foldl_resolveStep_logs (tsc : String) (ps : List (String × Change × Change)) :
    ∀ acc : ResolveAcc, (ps.foldl (resolveStep tsc) acc).logs =
      acc.logs ++ ps.map (logOf tsc) := by
  induction ps with
  | nil => intro acc; simp
  | cons t ts ih =>
    intro acc
    simp only [List.foldl_cons, ih, List.map_cons]
    obtain ⟨pk, sc, dc⟩ := t
    unfold resolveStep logOf
    rcases h : conflictBranch tsc sc dc with _ | _ | b
    · simp [h]
    · simp [h]
    · cases b <;> simp [h]

theorem foldl_resolveStep_count (tsc : String) (ps : List (String × Change × Change)) :
    ∀ acc : ResolveAcc, (ps.foldl (resolveStep tsc) acc).conflicts_resolved =
      acc.conflicts_resolved + (ps.countP (countedConflict tsc)) := by
  induction ps with
  | nil => intro acc; simp
  | cons t ts ih =>
    intro acc
    simp only [List.foldl_cons, ih, List.countP_cons]
    obtain ⟨pk, sc, dc⟩ := t
    unfold resolveStep countedConflict
    rcases h : conflictBranch tsc sc dc with _ | _ | b
    · simp [h]
    · simp [h]
    · cases b <;> simp [h] <;> omega

theorem lookup_nil {α : Type} (k : String) : ([] : List (String × α)).lookup k = none := rfl

theorem lookup_cons {α : Type} (k k₀ : String) (v₀ : α) (t : List (String × α)) :
    ((k₀, v₀) :: t).lookup k = if k = k₀ then some v₀ else t.lookup k := by
  by_cases h : k = k₀
  · simp [List.lookup, h]
  · have hb : (k == k₀) = false := by simp [h]
    simp [List.lookup, hb, h]

theorem lookup_replaceKey {α : Type} (k k' : String) (v : α) (m : List (String × α)) :
    (m.map (fun p => if p.1 == k then (k, v) else p)).lookup k' =
      if k' = k then (if m.any (fun q => q.1 == k) then some v else none)
      else m.lookup k' := by
  induction m with
  | nil => by_cases h : k' = k <;> simp [h, lookup_nil]
  | cons p t ih =>
    obtain ⟨k₀, v₀⟩ := p
    by_cases hk : k₀ = k
    · subst hk
      have hb : ((k₀, v₀).1 == k₀) = true := by simp
      simp only [List.map_cons, hb, if_true, List.any_cons, Bool.true_or]
      rw [lookup_cons, lookup_cons]
      by_cases h' : k' = k₀
      · simp [h']
      · simp only [if_neg h']
        rw [ih]
        simp [h']
    · have hb : ((k₀, v₀).1 == k) = false := by simp [hk]
      simp only [List.map_cons, hb, Bool.false_eq_true, if_false, List.any_cons,
        Bool.false_or]
      rw [lookup_cons, lookup_cons]
      by_cases h' : k' = k₀
      · subst h'
        have hne : ¬ k' = k := hk
        simp [hne]
      · simp only [if_neg h']
        rw [ih]

theorem lookup_append {α : Type} (k : String) (m₁ m₂ : List (String × α)) :
    (m₁ ++ m₂).lookup k =
      match m₁.lookup k with
      | some v => some v
      | none => m₂.lookup k := by
  induction m₁ with
  | nil => simp [lookup_nil]
  | cons p t ih =>
    obtain ⟨k₀, v₀⟩ := p
    rw [List.cons_append, lookup_cons, lookup_cons]
    by_cases h : k = k₀ <;> simp [h, ih]

theorem lookup_dictInsert {α : Type} (m : List (String × α)) (k k' : String) (v : α) :
    (dictInsert m k v).lookup k' = if k' = k then some v else m.lookup k' := by
  unfold dictInsert
  by_cases hmem : m.any (fun q => q.1 == k)
  · simp only [hmem, if_true]
    rw [lookup_replaceKey]
    by_cases h : k' = k
    · simp [h, hmem]
    · simp [h]
  · simp only [hmem, Bool.false_eq_true, if_false]
    rw [lookup_append]
    by_cases h : k' = k
    · subst h
      have hnone : m.lookup k' = none := by
        induction m with
        | nil => rfl
        | cons p t ih =>
          obtain ⟨k₀, v₀⟩ := p
          simp only [List.any_cons, Bool.or_eq_true, not_or] at hmem
          rw [lookup_cons]
          have : ¬ k' = k₀ := by
            intro hc
            exact hmem.1 (by simp [← hc])
          simp [this, ih hmem.2]
      simp [hnone, lookup_cons]
    · simp only [if_neg h]
      cases hcase : m.lookup k' with
      | some v' => simp
      | none => simp [lookup_cons, h, lookup_nil]

theorem mem_dictInsert {α : Type} (m : List (String × α)) (k : String) (v : α)
    (p : String × α) (hp : p ∈ dictInsert m k v) : p = (k, v) ∨ p ∈ m := by
  unfold dictInsert at hp
  by_cases hmem : m.any (fun q => q.1 == k)
  · simp only [hmem, if_true] at hp
    obtain ⟨q, hq, hqe⟩ := List.mem_map.1 hp
    by_cases hq1 : q.1 = k
    · left
      rw [← hqe]
      simp [hq1]
    · right
      rw [← hqe]
      simpa [hq1] using hq
  · simp only [hmem, Bool.false_eq_true, if_false, List.mem_append,
      List.mem_singleton] at hp
    tauto

theorem keys_dictInsert {α : Type} (m : List (String × α)) (k : String) (v : α) :
    (dictInsert m k v).map Prod.fst =
      if m.any (fun q => q.1 == k) then m.map Prod.fst else m.map Prod.fst ++ [k] := by
  unfold dictInsert
  by_cases hmem : m.any (fun q => q.1 == k)
  · simp only [hmem, if_true, List.map_map]
    congr 1
    funext p
    by_cases h : p.1 = k <;> simp [h]
  · simp [hmem]

theorem find?_eq_head?_filter {α : Type} (p : α → Bool) (l : List α) :
    l.find? p = (l.filter p).head? := by
  induction l with
  | nil => rfl
  | cons a t ih =>
    by_cases h : p a
    · rw [List.find?_cons_of_pos _ h, List.filter_cons_of_pos h]
      rfl
    · rw [List.find?_cons_of_neg _ (by simp [h]), List.filter_cons_of_neg (by simp [h]), ih]

theorem lookup_mem {α : Type} (m : List (String × α)) (k : String) (v : α)
    (h : m.lookup k = some v) : (k, v) ∈ m := by
  induction m with
  | nil => simp [lookup_nil] at h
  | cons p t ih =>
    obtain ⟨k₀, v₀⟩ := p
    rw [lookup_cons] at h
    by_cases hk : k = k₀
    · simp only [hk, if_true, Option.some.injEq] at h
      subst hk; subst h
      exact List.mem_cons_self _ _
    · simp only [hk, if_false] at h
      exact List.mem_cons_of_mem _ (ih h)

theorem any_key_of_lookup {α : Type} (m : List (String × α)) (k : String) (v : α)
    (h : m.lookup k = some v) : m.any (fun q => q.1 == k) = true := by
  have := lookup_mem m k v h
  exact List.any_eq_true.2 ⟨(k, v), this, by simp⟩

theorem assoc_unique {α : Type} (m : List (String × α)) (k : String) (v v' : α)
    (hnd : (m.map Prod.fst).Nodup) (h : (k, v) ∈ m) (h' : (k, v') ∈ m) : v = v' := by
  induction m with
  | nil => simp at h
  | cons p t ih =>
    obtain ⟨k₀, v₀⟩ := p
    simp only [List.map_cons, List.nodup_cons] at hnd
    rcases List.mem_cons.1 h with h₁ | h₁ <;> rcases List.mem_cons.1 h' with h₂ | h₂
    · rw [Prod.mk.injEq] at h₁ h₂
      rw [h₁.2, h₂.2]
    · exfalso
      rw [Prod.mk.injEq] at h₁
      exact hnd.1 (h₁.1 ▸ (List.mem_map.2 ⟨(k, v'), h₂, rfl⟩))
    · exfalso
      rw [Prod.mk.injEq] at h₂
      exact hnd.1 (h₂.1 ▸ (List.mem_map.2 ⟨(k, v), h₁, rfl⟩))
    · exact ih hnd.2 h₁ h₂

theorem indexByPk_entry (cs : List Change) :
    ∀ p ∈ indexByPk cs, p.2.primary_key_value = p.1 ∧ p.2 ∈ cs := by
  suffices h : ∀ (m : List (String × Change)), ∀ p ∈ cs.foldl
      (fun m c => dictInsert m c.primary_key_value c) m,
      (p.2.primary_key_value = p.1 ∧ p.2 ∈ cs) ∨ p ∈ m by
    intro p hp
    rcases h [] p hp with h' | h'
    · exact h'
    · simp at h'
  induction cs with
  | nil => intro m p hp; right; simpa using hp
  | cons c rest ih =>
    intro m p hp
    rcases ih (dictInsert m c.primary_key_value c) p hp with h' | h'
    · exact Or.inl ⟨h'.1, List.mem_cons_of_mem _ h'.2⟩
    · rcases mem_dictInsert _ _ _ _ h' with h'' | h''
      · subst h''
        exact Or.inl ⟨rfl, List.mem_cons_self _ _⟩
      · exact Or.inr h''

theorem lookup_indexByPk (cs : List Change) (k : String) :
    (indexByPk cs).lookup k =
      cs.reverse.find? (fun c => c.primary_key_value == k) := by
  suffices h : ∀ (m : List (String × Change)),
      (cs.foldl (fun m c => dictInsert m c.primary_key_value c) m).lookup k =
      match cs.reverse.find? (fun c => c.primary_key_value == k) with
      | some c => some c
      | none => m.lookup k by
    rw [indexByPk, h []]
    cases cs.reverse.find? (fun c => c.primary_key_value == k) <;> simp [lookup_nil]
  induction cs with
  | nil => intro m; simp
  | cons c rest ih =>
    intro m
    simp only [List.foldl_cons, List.reverse_cons]
    rw [ih]
    rw [List.find?_append]
    cases hr : rest.reverse.find? (fun c => c.primary_key_value == k) with
    | some c' => simp
    | none =>
      simp only [Option.none_orElse]
      rw [lookup_dictInsert]
      by_cases hc : c.primary_key_value = k
      · simp [List.find?, hc]
      · have : (c.primary_key_value == k) = false := by simp [hc]
        simp [List.find?, this, hc]
        intro h'
        exact absurd h'.symm hc

theorem keys_indexByPk_nodup (cs : List Change) :
    ((indexByPk cs).map Prod.fst).Nodup := by
  suffices h : ∀ (m : List (String × Change)), (m.map Prod.fst).Nodup →
      ((cs.foldl (fun m c => dictInsert m c.primary_key_value c) m).map Prod.fst).Nodup by
    exact h [] (by simp)
  induction cs with
  | nil => intro m hm; simpa using hm
  | cons c rest ih =>
    intro m hm
    apply ih
    rw [keys_dictInsert]
    by_cases hmem : m.any (fun q => q.1 == c.primary_key_value)
    · simpa [hmem] using hm
    · simp only [hmem, Bool.false_eq_true, if_false]
      have hnotin : c.primary_key_value ∉ m.map Prod.fst := by
        intro hin
        obtain ⟨p, hp, hpe⟩ := List.mem_map.1 hin
        exact absurd (List.any_eq_true.2 ⟨p, hp, by simp [hpe]⟩) hmem
      simp [List.nodup_append, hm, hnotin]

theorem map_fst_filterMap_sublist {α β γ : Type} (f : α → Option β) (g : β → γ)
    (g' : α → γ) (hfg : ∀ a b, f a = some b → g b = g' a) (l : List α) :
    ((l.filterMap f).map g).Sublist (l.map g') := by
  induction l with
  | nil => simp
  | cons a rest ih =>
    cases hfa : f a with
    | none =>
      rw [List.filterMap_cons_none hfa, List.map_cons]
      exact ih.trans (List.sublist_cons_self _ _)
    | some b =>
      rw [List.filterMap_cons_some hfa, List.map_cons, List.map_cons, hfg a b hfa]
      exact ih.cons₂ _

theorem filterMap_filter_pk_nil (pk : String)
    (w : String × Change × Change → Option Change)
    (T : List (String × Change × Change))
    (hw : ∀ t ∈ T, ∀ x, w t = some x → x.primary_key_value = t.1)
    (hT : ∀ t ∈ T, t.1 ≠ pk) :
    (T.filterMap w).filter (fun c => c.primary_key_value == pk) = [] := by
  apply List.filter_eq_nil_iff.2
  intro c hc
  obtain ⟨t, ht, hw'⟩ := List.mem_filterMap.1 hc
  simp [hw t ht c hw', hT t ht]

theorem filterMap_filter_pk (pk : String) (sc dc : Change)
    (w : String × Change × Change → Option Change)
    (T : List (String × Change × Change))
    (hw : ∀ t ∈ T, ∀ x, w t = some x → x.primary_key_value = t.1)
    (hkeys : (T.map (fun t => t.1)).Nodup)
    (hmem : (pk, sc, dc) ∈ T) :
    (T.filterMap w).filter (fun c => c.primary_key_value == pk) =
      (w (pk, sc, dc)).toList := by
  induction T with
  | nil => simp at hmem
  | cons t rest ih =>
    simp only [List.map_cons, List.nodup_cons] at hkeys
    have hwrest : ∀ t' ∈ rest, ∀ x, w t' = some x → x.primary_key_value = t'.1 :=
      fun t' ht' => hw t' (List.mem_cons_of_mem _ ht')
    rcases List.mem_cons.1 hmem with he | hr
    · subst he
      have hrest : ∀ t' ∈ rest, t'.1 ≠ pk := by
        intro t' ht' hc
        exact hkeys.1 (hc ▸ List.mem_map.2 ⟨t', ht', rfl⟩)
      cases hwt : w (pk, sc, dc) with
      | some x =>
        rw [List.filterMap_cons_some hwt]
        have hx : x.primary_key_value = pk :=
          hw _ (List.mem_cons_self _ _) _ hwt
        rw [List.filter_cons_of_pos (by simp [hx]),
          filterMap_filter_pk_nil pk w rest hwrest hrest]
        simp [hwt]
      | none =>
        rw [List.filterMap_cons_none hwt,
          filterMap_filter_pk_nil pk w rest hwrest hrest]
        simp [hwt]
    · have hne : t.1 ≠ pk := by
        intro hc
        exact hkeys.1 (hc ▸ List.mem_map.2 ⟨(pk, sc, dc), hr, rfl⟩)
      cases hwt : w t with
      | some x =>
        rw [List.filterMap_cons_some hwt,
          List.filter_cons_of_neg
            (by simp [hw t (List.mem_cons_self _ _) x hwt, hne]),
          ih hwrest hkeys.2 hr]
      | none =>
        rw [List.filterMap_cons_none hwt, ih hwrest hkeys.2 hr]

/-- The conflicting pairs the resolver's loop iterates over. -/
def confPairs (tsc : String) (S D : List Change) : List (String × Change × Change) :=
  (indexByPk S).filterMap
    (fun p => ((indexByPk D).lookup p.1).map (fun dc => (p.1, p.2, dc)))

theorem resolve_conflicts_eq (tsc : String) (S D : List Change) :
    resolve_conflicts tsc S D =
      { resolved_sheets :=
          ((indexByPk S).filter
            (fun p => !((indexByPk D).any (fun q => q.1 == p.1)))).map Prod.snd ++
            (confPairs tsc S D).filterMap (sheetWinOf tsc),
        resolved_mysql :=
          ((indexByPk D).filter
            (fun p => !((indexByPk S).any (fun q => q.1 == p.1)))).map Prod.snd ++
            (confPairs tsc S D).filterMap (mysqlWinOf tsc),
        logs := (confPairs tsc S D).map (logOf tsc) ++ [⟨.info, "conflicts_summary"⟩],
        conflicts_resolved := (confPairs tsc S D).countP (countedConflict tsc) } := by
  unfold resolve_conflicts confPairs
  rw [ResolveAcc.mk.injEq]
  refine ⟨?_, ?_, ?_, ?_⟩
  · rw [foldl_resolveStep_rs]
  · rw [foldl_resolveStep_rm]
  · rw [foldl_resolveStep_logs]
    simp
  · rw [foldl_resolveStep_count]
    simp

/-- The dictionary lookup of the resolver finds the unique change with the
given primary key, when the input has exactly one. -/
theorem lookup_indexByPk_of_filter_singleton (cs : List Change) (pk : String)
    (c : Change) (h : cs.filter (fun c => c.primary_key_value == pk) = [c]) :
    (indexByPk cs).lookup pk = some c := by
  rw [lookup_indexByPk, find?_eq_head?_filter, List.filter_reverse, h]
  rfl

theorem pk_of_filter_singleton (cs : List Change) (pk : String) (c : Change)
    (h : cs.filter (fun c => c.primary_key_value == pk) = [c]) :
    c.primary_key_value = pk := by
  have : c ∈ cs.filter (fun c => c.primary_key_value == pk) := by
    rw [h]; exact List.mem_singleton_self c
  have := List.of_mem_filter this
  simpa using this

/-- Filtering each resolver output at a conflicting primary key: the
slot of the winning side holds exactly the surviving change, the other
slot is empty, and the branch's log record is emitted. -/
theorem resolve_conflicts_at_pk (tsc : String) (S D : List Change) (pk : String)
    (sc dc : Change)
    (hS : S.filter (fun c => c.primary_key_value == pk) = [sc])
    (hD : D.filter (fun c => c.primary_key_value == pk) = [dc]) :
    ((resolve_conflicts tsc S D).resolved_sheets.filter
        (fun c => c.primary_key_value == pk) =
      (sheetWinOf tsc (pk, sc, dc)).toList) ∧
    ((resolve_conflicts tsc S D).resolved_mysql.filter
        (fun c => c.primary_key_value == pk) =
      (mysqlWinOf tsc (pk, sc, dc)).toList) ∧
    logOf tsc (pk, sc, dc) ∈ (resolve_conflicts tsc S D).logs := by
  have hlookS : (indexByPk S).lookup pk = some sc :=
    lookup_indexByPk_of_filter_singleton S pk sc hS
  have hlookD : (indexByPk D).lookup pk = some dc :=
    lookup_indexByPk_of_filter_singleton D pk dc hD
  have hmemS : (pk, sc) ∈ indexByPk S := lookup_mem _ _ _ hlookS
  have hmemD : (pk, dc) ∈ indexByPk D := lookup_mem _ _ _ hlookD
  have hanyS : (indexByPk S).any (fun q => q.1 == pk) = true :=
    any_key_of_lookup _ _ _ hlookS
  have hanyD : (indexByPk D).any (fun q => q.1 == pk) = true :=
    any_key_of_lookup _ _ _ hlookD
  -- the conflicting pair for pk is a member of confPairs
  have hmemT : (pk, sc, dc) ∈ confPairs tsc S D := by
    unfold confPairs
    exact List.mem_filterMap.2 ⟨(pk, sc), hmemS, by rw [hlookD]; rfl⟩
  -- keys of confPairs are nodup
  have hkeysT : ((confPairs tsc S D).map (fun t => t.1)).Nodup := by
    have hsub := map_fst_filterMap_sublist
      (fun p => ((indexByPk D).lookup p.1).map (fun dc => (p.1, p.2, dc)))
      (fun t => t.1) Prod.fst ?_ (indexByPk S)
    · exact hsub.nodup (keys_indexByPk_nodup S)
    · intro a b hab
      dsimp only at hab
      cases hl : (indexByPk D).lookup a.1 with
      | none => rw [hl] at hab; simp at hab
      | some d =>
        rw [hl] at hab
        simp only [Option.map_some', Option.some.injEq] at hab
        rw [← hab]
  -- each triple's two changes carry the triple's key
  have hstruct : ∀ t ∈ confPairs tsc S D,
      t.2.1.primary_key_value = t.1 ∧ t.2.2.primary_key_value = t.1 := by
    intro t ht
    obtain ⟨p, hp, hpe⟩ := List.mem_filterMap.1 ht
    cases hl : (indexByPk D).lookup p.1 with
    | none => rw [hl] at hpe; simp at hpe
    | some d =>
      rw [hl] at hpe
      simp only [Option.map_some', Option.some.injEq] at hpe
      subst hpe
      exact ⟨(indexByPk_entry S p hp).1,
        (indexByPk_entry D (p.1, d) (lookup_mem _ _ _ hl)).1⟩
  have hwS : ∀ t ∈ confPairs tsc S D, ∀ x, sheetWinOf tsc t = some x →
      x.primary_key_value = t.1 := by
    intro t ht x hx
    unfold sheetWinOf at hx
    rcases hb : conflictBranch tsc t.2.1 t.2.2 with _ | _ | b
    · rw [hb] at hx; simp at hx
    · rw [hb] at hx; simp at hx
    · rcases b with _ | _
      · rw [hb] at hx
        simp only [Option.some.injEq] at hx
        rw [← hx]
        exact (hstruct t ht).1
      · rw [hb] at hx; simp at hx
  have hwM : ∀ t ∈ confPairs tsc S D, ∀ x, mysqlWinOf tsc t = some x →
      x.primary_key_value = t.1 := by
    intro t ht x hx
    unfold mysqlWinOf at hx
    rcases hb : conflictBranch tsc t.2.1 t.2.2 with _ | _ | b
    · rw [hb] at hx
      simp only [Option.some.injEq] at hx
      rw [← hx]
      exact (hstruct t ht).2
    · rw [hb] at hx
      simp only [Option.some.injEq] at hx
      rw [← hx]
      exact (hstruct t ht).2
    · rcases b with _ | _
      · rw [hb] at hx; simp at hx
      · rw [hb] at hx
        simp only [Option.some.injEq] at hx
        rw [← hx]
        exact (hstruct t ht).2
  -- the non-conflicting pass-through lists contain nothing at pk
  have hnc₁ : (((indexByPk S).filter
      (fun p => !((indexByPk D).any (fun q => q.1 == p.1)))).map Prod.snd).filter
      (fun c => c.primary_key_value == pk) = [] := by
    apply List.filter_eq_nil_iff.2
    intro c hc
    obtain ⟨p, hp, hpe⟩ := List.mem_map.1 hc
    have hp' := List.mem_filter.1 hp
    have hpk : p.2.primary_key_value = p.1 := (indexByPk_entry S p hp'.1).1
    intro hcp
    rw [← hpe] at hcp
    simp only [beq_iff_eq] at hcp
    rw [hpk] at hcp
    rw [hcp] at hp'
    have := hp'.2
    rw [hanyD] at this
    simp at this
  have hnc₂ : (((indexByPk D).filter
      (fun p => !((indexByPk S).any (fun q => q.1 == p.1)))).map Prod.snd).filter
      (fun c => c.primary_key_value == pk) = [] := by
    apply List.filter_eq_nil_iff.2
    intro c hc
    obtain ⟨p, hp, hpe⟩ := List.mem_map.1 hc
    have hp' := List.mem_filter.1 hp
    have hpk : p.2.primary_key_value = p.1 := (indexByPk_entry D p hp'.1).1
    intro hcp
    rw [← hpe] at hcp
    simp only [beq_iff_eq] at hcp
    rw [hpk] at hcp
    rw [hcp] at hp'
    have := hp'.2
    rw [hanyS] at this
    simp at this
  rw [resolve_conflicts_eq]
  refine ⟨?_, ?_, ?_⟩
  · simp only [List.filter_append, hnc₁, List.nil_append]
    exact filterMap_filter_pk pk sc dc (sheetWinOf tsc) _ hwS hkeysT hmemT
  · simp only [List.filter_append, hnc₂, List.nil_append]
    exact filterMap_filter_pk pk sc dc (mysqlWinOf tsc) _ hwM hkeysT hmemT
  · exact List.mem_append.2 (Or.inl (List.mem_map.2 ⟨(pk, sc, dc), hmemT, rfl⟩))

/-- A Python-falsy cell never casts to a parseable timestamp, so a
successfully parsed timestamp came from a truthy cell. -/
theorem cellTruthy_of_parse (c : Cell) (dt : DateTime)
    (h : parse_timestamp (cellCast c) = some dt) : cellTruthy c = true := by
  cases c with
  | null => rfl
  | text s =>
    by_cases hs : s.isEmpty
    · rw [String.isEmpty_iff] at hs
      subst hs
      have : parse_timestamp (cellCast (Cell.text "")) = none := rfl
      rw [this] at h
      exact absurd h (by simp)
    · simpa [cellTruthy] using hs
  | num n =>
    by_cases hn : n = 0
    · subst hn
      have : parse_timestamp (cellCast (Cell.num 0)) = none := rfl
      rw [this] at h
      exact absurd h (by simp)
    · simpa [cellTruthy] using hn

theorem conflictBranch_decided (tsc : String) (sc dc : Change)
    (scell dcell : Cell) (sdt ddt : DateTime)
    (hsc : sc.data.lookup tsc = some scell)
    (hdc : dc.data.lookup tsc = some dcell)
    (hsp : parse_timestamp (cellCast scell) = some sdt)
    (hdp : parse_timestamp (cellCast dcell) = some ddt) :
    conflictBranch tsc sc dc = .decided (dtKey sdt ≤ dtKey ddt) := by
  unfold conflictBranch
  rw [hsc, hdc]
  simp only [cellTruthy_of_parse _ _ hsp, cellTruthy_of_parse _ _ hdp, Bool.not_true,
    Bool.or_self, Bool.false_eq_true, if_false, hsp, hdp]

/-- C1.  For a conflicting primary key whose two changes both carry a
parseable timestamp in the configured timestamp column,
`resolve_conflicts` queues the database change for the spreadsheet
output (`resolved_mysql`) iff the database timestamp is ≥ the sheet
timestamp, and otherwise queues the sheet change for the database output
(`resolved_sheets`); filtering both outputs at that key shows the losing
change appears in neither. -/
theorem C1_lww_ties_to_db (tsc : String) (S D : List Change) (pk : String)
    (sc dc : Change) (scell dcell : Cell) (sdt ddt : DateTime)
    (hS : S.filter (fun c => c.primary_key_value == pk) = [sc])
    (hD : D.filter (fun c => c.primary_key_value == pk) = [dc])
    (hsc : sc.data.lookup tsc = some scell)
    (hdc : dc.data.lookup tsc = some dcell)
    (hsp : parse_timestamp (cellCast scell) = some sdt)
    (hdp : parse_timestamp (cellCast dcell) = some ddt) :
    ((resolve_conflicts tsc S D).resolved_mysql.filter
        (fun c => c.primary_key_value == pk),
     (resolve_conflicts tsc S D).resolved_sheets.filter
        (fun c => c.primary_key_value == pk)) =
      if dtKey sdt ≤ dtKey ddt then ([dc], []) else ([], [sc]) := by
  obtain ⟨hrs, hrm, _⟩ := resolve_conflicts_at_pk tsc S D pk sc dc hS hD
  have hbr := conflictBranch_decided tsc sc dc scell dcell sdt ddt hsc hdc hsp hdp
  rw [hrs, hrm]
  unfold sheetWinOf mysqlWinOf
  rw [hbr]
  by_cases hle : dtKey sdt ≤ dtKey ddt
  · simp [hle]
  · simp [hle]

/-- Spec scenario 1, sheet side: UPDATE of pk 1 stamped 10:00:00. -/
def scenScW : Change :=
  ⟨.UPDATE, "1", .sheets,
    [("email", .text "alice@sheets.com"),
     ("last_modified", .text "2026-01-14 10:00:00")]⟩

/-- Spec scenario 1, database side: UPDATE of pk 1 stamped 10:05:00. -/
def scenDcW : Change :=
  ⟨.UPDATE, "1", .mysql,
    [("email", .text "alice@db.com"),
     ("last_modified", .text "2026-01-14 10:05:00")]⟩

/-- Witness for C1 on spec scenario 1 (db newer, db wins). -/
theorem C1_lww_ties_to_db_witness :
    ((resolve_conflicts "last_modified" [scenScW] [scenDcW]).resolved_mysql.filter
        (fun c => c.primary_key_value == "1"),
     (resolve_conflicts "last_modified" [scenScW] [scenDcW]).resolved_sheets.filter
        (fun c => c.primary_key_value == "1")) = ([scenDcW], []) := by
  have h := C1_lww_ties_to_db "last_modified" [scenScW] [scenDcW] "1" scenScW scenDcW
    (.text "2026-01-14 10:00:00") (.text "2026-01-14 10:05:00")
    ⟨2026, 1, 14, 10, 0, 0, 0⟩ ⟨2026, 1, 14, 10, 5, 0, 0⟩
    (by rfl) (by rfl) (by rfl) (by rfl) (by rfl) (by rfl)
  rw [h]
  rfl

/-- Sheet-side change of spec scenario 5: unparseable timestamp. -/
def c5Sc : Change :=
  ⟨.UPDATE, "8", .sheets,
    [("email", .text "x@s"), ("last_modified", .text "not-a-date")]⟩

/-- Database-side change of spec scenario 5: valid timestamp. -/
def c5Dc : Change :=
  ⟨.UPDATE, "8", .mysql,
    [("email", .text "x@m"), ("last_modified", .text "2026-01-14 10:05:00")]⟩

/-- Counterexample to C5 as stated: on an unparseable sheet timestamp the
database change still wins, but the resolver logs the fallback at *error*
level (`conflict_resolution_failed`) and emits no warning at all, while
the claim promises a warning. -/
theorem C5_counterexample_no_warning_on_parsefail :
    (resolve_conflicts "last_modified" [c5Sc] [c5Dc]).resolved_mysql = [c5Dc] ∧
    (resolve_conflicts "last_modified" [c5Sc] [c5Dc]).resolved_sheets = [] ∧
    (⟨.error, "conflict_resolution_failed"⟩ : LogEvent) ∈
      (resolve_conflicts "last_modified" [c5Sc] [c5Dc]).logs ∧
    ((resolve_conflicts "last_modified" [c5Sc] [c5Dc]).logs.all
      (fun l => l.level != .warn)) = true := by
  refine ⟨by rfl, by rfl, ?_, by rfl⟩
  have : (resolve_conflicts "last_modified" [c5Sc] [c5Dc]).logs =
      [⟨.error, "conflict_resolution_failed"⟩, ⟨.info, "conflicts_summary"⟩] := by rfl
  rw [this]
  exact List.mem_cons_self _ _

/-- C5 (amended).  For a conflicting primary key whose timestamp is
missing/falsy on either side, or fails to parse on either side, the
database change is queued for the spreadsheet output and the sheet change
is discarded; the missing case logs a warning
(`conflict_missing_timestamp`) while the parse-failure case logs at error
level (`conflict_resolution_failed`).  The resolver is a total function,
so no exception escapes. -/
theorem C5_fallback_db_wins (tsc : String) (S D : List Change) (pk : String)
    (sc dc : Change)
    (hS : S.filter (fun c => c.primary_key_value == pk) = [sc])
    (hD : D.filter (fun c => c.primary_key_value == pk) = [dc])
    (hfb : conflictBranch tsc sc dc = .missing ∨
           conflictBranch tsc sc dc = .parsefail) :
    ((resolve_conflicts tsc S D).resolved_mysql.filter
        (fun c => c.primary_key_value == pk) = [dc]) ∧
    ((resolve_conflicts tsc S D).resolved_sheets.filter
        (fun c => c.primary_key_value == pk) = []) ∧
    (conflictBranch tsc sc dc = .missing →
      (⟨.warn, "conflict_missing_timestamp"⟩ : LogEvent) ∈
        (resolve_conflicts tsc S D).logs) ∧
    (conflictBranch tsc sc dc = .parsefail →
      (⟨.error, "conflict_resolution_failed"⟩ : LogEvent) ∈
        (resolve_conflicts tsc S D).logs) := by
  obtain ⟨hrs, hrm, hlog⟩ := resolve_conflicts_at_pk tsc S D pk sc dc hS hD
  rcases hfb with hb | hb
  · refine ⟨?_, ?_, ?_, ?_⟩
    · rw [hrm]
      unfold mysqlWinOf
      rw [hb]
      rfl
    · rw [hrs]
      unfold sheetWinOf
      rw [hb]
      rfl
    · intro _
      have : logOf tsc (pk, sc, dc) = ⟨.warn, "conflict_missing_timestamp"⟩ := by
        unfold logOf
        rw [hb]
      rw [← this]
      exact hlog
    · intro hc
      rw [hb] at hc
      exact absurd hc (by simp)
  · refine ⟨?_, ?_, ?_, ?_⟩
    · rw [hrm]
      unfold mysqlWinOf
      rw [hb]
      rfl
    · rw [hrs]
      unfold sheetWinOf
      rw [hb]
      rfl
    · intro hc
      rw [hb] at hc
      exact absurd hc (by simp)
    · intro _
      have : logOf tsc (pk, sc, dc) = ⟨.error, "conflict_resolution_failed"⟩ := by
        unfold logOf
        rw [hb]
      rw [← this]
      exact hlog

/-- Sheet-side change of spec scenario 4: timestamp column absent. -/
def c5ScMissing : Change := ⟨.UPDATE, "9", .sheets, [("email", .text "y@s")]⟩

/-- Database-side change of spec scenario 4. -/
def c5DcMissing : Change :=
  ⟨.UPDATE, "9", .mysql,
    [("email", .text "y@m"), ("last_modified", .text "2026-01-14 10:05:00")]⟩

/-- Witness for the amended C5 on spec scenario 4 (missing sheet
timestamp). -/
theorem C5_fallback_db_wins_witness :
    ((resolve_conflicts "last_modified" [c5ScMissing] [c5DcMissing]).resolved_mysql.filter
        (fun c => c.primary_key_value == "9") = [c5DcMissing]) ∧
    ((resolve_conflicts "last_modified" [c5ScMissing] [c5DcMissing]).resolved_sheets.filter
        (fun c => c.primary_key_value == "9") = []) ∧
    (⟨.warn, "conflict_missing_timestamp"⟩ : LogEvent) ∈
      (resolve_conflicts "last_modified" [c5ScMissing] [c5DcMissing]).logs := by
  have h := C5_fallback_db_wins "last_modified" [c5ScMissing] [c5DcMissing] "9"
    c5ScMissing c5DcMissing (by rfl) (by rfl) (Or.inl (by rfl))
  exact ⟨h.1, h.2.1, h.2.2.1 (by rfl)⟩

theorem updatesFor_ops (pkc : String) (old new : Snapshot) (src : Source)
    (pks : List String) (ups : List Change)
    (h : updatesFor pkc old new src pks = .ok ups) :
    ∀ ch ∈ ups, ch.operation = .UPDATE := by
  induction pks generalizing ups with
  | nil =>
    simp only [updatesFor] at h
    cases h
    intro ch hch
    simp at hch
  | cons pk rest ih =>
    simp only [updatesFor] at h
    cases hd : deltaCols old.cols new.cols (firstRowFor pkc old pk)
        (firstRowFor pkc new pk) new.cols with
    | error e => rw [hd] at h; cases h
    | ok delta =>
      rw [hd] at h
      cases hu : updatesFor pkc old new src rest with
      | error e => rw [hu] at h; cases h
      | ok more =>
        rw [hu] at h
        simp only [Except.ok.injEq] at h
        intro ch hch
        rw [← h] at hch
        by_cases hde : delta.isEmpty
        · rw [if_pos hde] at hch
          exact ih more hu ch hch
        · rw [if_neg hde] at hch
          rcases List.mem_cons.1 hch with he | hm
          · rw [he]
          · exact ih more hu ch hm

/-- Every DELETE a successful detection emits carries an empty payload. -/
theorem detect_delete_payload_empty (pkc : String) (old new : Snapshot)
    (src : Source) (chs : List Change)
    (h : detect_changes pkc old new src = .ok chs) :
    ∀ ch ∈ chs, ch.operation = .DELETE → ch.data = [] := by
  unfold detect_changes at h
  by_cases h₁ : (old.isEmpty && new.isEmpty) = true
  · rw [if_pos h₁] at h
    simp only [Except.ok.injEq] at h
    subst h
    intro ch hch
    simp at hch
  rw [if_neg h₁] at h
  by_cases h₂ : (!old.isEmpty && !(old.cols.contains pkc)) = true
  · rw [if_pos h₂] at h
    simp at h
  rw [if_neg h₂] at h
  by_cases h₃ : (!new.isEmpty && !(new.cols.contains pkc)) = true
  · rw [if_pos h₃] at h
    simp at h
  rw [if_neg h₃] at h
  cases hu : updatesFor pkc old new src (commonPks pkc old new) with
    | error e => rw [hu] at h; simp at h
    | ok ups =>
      rw [hu] at h
      simp only [Except.ok.injEq] at h
      intro ch hch hop
      rw [← h] at hch
      rcases List.mem_append.1 hch with hm | hm
      · rcases List.mem_append.1 hm with hm' | hm'
        · obtain ⟨k, _, hk⟩ := List.mem_map.1 hm'
          rw [← hk]
        · obtain ⟨k, _, hk⟩ := List.mem_map.1 hm'
          rw [← hk] at hop
          cases hop
      · have := updatesFor_ops pkc old new src _ ups hu ch hm
        rw [this] at hop
        cases hop

theorem conflictBranch_missing_of_empty (tsc : String) (sc dc : Change)
    (h : sc.data = [] ∨ dc.data = []) :
    conflictBranch tsc sc dc = .missing := by
  unfold conflictBranch
  rcases h with h | h
  · rw [h]
    cases List.lookup tsc dc.data <;> rfl
  · rw [h]
    cases List.lookup tsc sc.data <;> rfl

/-- C10.  (i) The detector always gives DELETE changes an empty payload;
(ii) hence for a conflicting primary key where either side's change is a
DELETE (empty payload), the timestamp lookup finds nothing, the
missing-timestamp fallback fires, and the database change wins — a
spreadsheet change never wins a conflict involving a DELETE. -/
theorem C10_delete_conflict_db_wins :
    (∀ (pkc : String) (old new : Snapshot) (src : Source) (chs : List Change),
      detect_changes pkc old new src = .ok chs →
      ∀ ch ∈ chs, ch.operation = .DELETE → ch.data = []) ∧
    (∀ (tsc : String) (S D : List Change) (pk : String) (sc dc : Change),
      S.filter (fun c => c.primary_key_value == pk) = [sc] →
      D.filter (fun c => c.primary_key_value == pk) = [dc] →
      ((sc.operation = .DELETE ∧ sc.data = []) ∨
       (dc.operation = .DELETE ∧ dc.data = [])) →
      ((resolve_conflicts tsc S D).resolved_mysql.filter
          (fun c => c.primary_key_value == pk) = [dc]) ∧
      ((resolve_conflicts tsc S D).resolved_sheets.filter
          (fun c => c.primary_key_value == pk) = [])) := by
  constructor
  · exact detect_delete_payload_empty
  · intro tsc S D pk sc dc hS hD hdel
    have hb : conflictBranch tsc sc dc = .missing :=
      conflictBranch_missing_of_empty tsc sc dc
        (by rcases hdel with h | h
            · exact Or.inl h.2
            · exact Or.inr h.2)
    obtain ⟨hrs, hrm, _⟩ := resolve_conflicts_at_pk tsc S D pk sc dc hS hD
    constructor
    · rw [hrm]
      unfold mysqlWinOf
      rw [hb]
      rfl
    · rw [hrs]
      unfold sheetWinOf
      rw [hb]
      rfl

/-- Old snapshot for the C10 witness: rows 1 and 2. -/
def c10Old : Snapshot :=
  ⟨["id", "name", "last_modified"],
   [[.text "1", .text "A", .text "2026-01-01 00:00:00"],
    [.text "2", .text "B", .text "2026-01-01 00:00:00"]]⟩

/-- New snapshot for the C10 witness: row 2 deleted on the sheet side. -/
def c10New : Snapshot :=
  ⟨["id", "name", "last_modified"],
   [[.text "1", .text "A", .text "2026-01-01 00:00:00"]]⟩

/-- The sheet-side DELETE of pk 2 as the detector emits it. -/
def c10Del : Change := ⟨.DELETE, "2", .sheets, []⟩

/-- Database-side UPDATE of pk 2 with a fresh timestamp. -/
def c10Upd : Change :=
  ⟨.UPDATE, "2", .mysql,
    [("name", .text "B9"), ("last_modified", .text "2026-01-14 10:05:00")]⟩

/-- Witness for C10: the detector's DELETE has an empty payload, and the
database UPDATE beats the sheet DELETE despite the sheet being the only
side with no timestamp at all. -/
theorem C10_delete_conflict_db_wins_witness :
    (∀ ch ∈ [c10Del], ch.operation = .DELETE → ch.data = []) ∧
    ((resolve_conflicts "last_modified" [c10Del] [c10Upd]).resolved_mysql.filter
        (fun c => c.primary_key_value == "2") = [c10Upd]) ∧
    ((resolve_conflicts "last_modified" [c10Del] [c10Upd]).resolved_sheets.filter
        (fun c => c.primary_key_value == "2") = []) := by
  constructor
  · exact C10_delete_conflict_db_wins.1 "id" c10Old c10New .sheets [c10Del] (by rfl)
  · exact C10_delete_conflict_db_wins.2 "last_modified" [c10Del] [c10Upd] "2"
      c10Del c10Upd (by rfl) (by rfl) (Or.inl ⟨rfl, rfl⟩)

/-! ## Resolver partition (C3) -/

theorem lookup_isSome_iff_any {α : Type} (m : List (String × α)) (k : String) :
    (m.lookup k).isSome = m.any (fun q => q.1 == k) := by
  induction m with
  | nil => rfl
  | cons p t ih =>
    obtain ⟨k₀, v₀⟩ := p
    rw [lookup_cons]
    by_cases h : k = k₀
    · simp [h]
    · have hb : (k₀ == k) = false := by
        simp only [beq_eq_false_iff_ne, ne_eq]
        exact fun hc => h hc.symm
      simp [h, hb, ih]

theorem length_filterMap_eq_countP {α β : Type} (f : α → Option β) (l : List α) :
    (l.filterMap f).length = l.countP (fun a => (f a).isSome) := by
  induction l with
  | nil => rfl
  | cons a t ih =>
    cases hf : f a with
    | none =>
      rw [List.filterMap_cons_none hf, List.countP_cons, ih]
      simp [hf]
    | some b =>
      rw [List.filterMap_cons_some hf, List.countP_cons, List.length_cons, ih]
      simp [hf]

theorem sheetWinOf_eq (tsc : String) (t : String × Change × Change) :
    sheetWinOf tsc t = if conflictBranch tsc t.2.1 t.2.2 = .decided false
      then some t.2.1 else none := by
  unfold sheetWinOf
  rcases hb : conflictBranch tsc t.2.1 t.2.2 with _ | _ | b
  · simp
  · simp
  · cases b <;> simp

theorem mysqlWinOf_eq (tsc : String) (t : String × Change × Change) :
    mysqlWinOf tsc t = if conflictBranch tsc t.2.1 t.2.2 = .decided false
      then none else some t.2.2 := by
  unfold mysqlWinOf
  rcases hb : conflictBranch tsc t.2.1 t.2.2 with _ | _ | b
  · simp
  · simp
  · cases b <;> simp

theorem winners_length (tsc : String) (T : List (String × Change × Change)) :
    (T.filterMap (sheetWinOf tsc)).length + (T.filterMap (mysqlWinOf tsc)).length =
      T.length := by
  induction T with
  | nil => rfl
  | cons t rest ih =>
    by_cases hb : conflictBranch tsc t.2.1 t.2.2 = .decided false
    · rw [List.filterMap_cons_some (by rw [sheetWinOf_eq, if_pos hb]),
        List.filterMap_cons_none (by rw [mysqlWinOf_eq, if_pos hb]),
        List.length_cons, List.length_cons]
      omega
    · rw [List.filterMap_cons_none (by rw [sheetWinOf_eq, if_neg hb]),
        List.filterMap_cons_some (by rw [mysqlWinOf_eq, if_neg hb]),
        List.length_cons, List.length_cons]
      omega

theorem indexByPk_of_nodup_aux (cs : List Change) :
    ∀ (m : List (String × Change)),
      (cs.map (fun c => c.primary_key_value)).Nodup →
      (∀ c ∈ cs, m.any (fun q => q.1 == c.primary_key_value) = false) →
      cs.foldl (fun m c => dictInsert m c.primary_key_value c) m =
        m ++ cs.map (fun c => (c.primary_key_value, c)) := by
  induction cs with
  | nil => intro m _ _; simp
  | cons c rest ih =>
    intro m hnd hm
    simp only [List.map_cons, List.nodup_cons] at hnd
    simp only [List.foldl_cons, List.map_cons]
    have hc : m.any (fun q => q.1 == c.primary_key_value) = false :=
      hm c (List.mem_cons_self _ _)
    have hinsert : dictInsert m c.primary_key_value c =
        m ++ [(c.primary_key_value, c)] := by
      unfold dictInsert
      rw [hc]
      simp
    rw [hinsert, ih (m ++ [(c.primary_key_value, c)]) hnd.2 ?_, List.append_assoc]
    · rfl
    · intro c' hc'
      rw [List.any_append]
      have h₁ : m.any (fun q => q.1 == c'.primary_key_value) = false :=
        hm c' (List.mem_cons_of_mem _ hc')
      have h₂ : c.primary_key_value ≠ c'.primary_key_value := by
        intro hcc
        exact hnd.1 (hcc ▸ List.mem_map.2 ⟨c', hc', rfl⟩)
      simp [h₁, h₂]

theorem indexByPk_of_nodup (cs : List Change)
    (h : (cs.map (fun c => c.primary_key_value)).Nodup) :
    indexByPk cs = cs.map (fun c => (c.primary_key_value, c)) := by
  have := indexByPk_of_nodup_aux cs [] h (by intro c _; rfl)
  simpa using this

theorem countP_bool_split {α : Type} (q : α → Bool) (l : List α) :
    l.countP q + l.countP (fun a => !(q a)) = l.length := by
  induction l with
  | nil => rfl
  | cons a t ih =>
    rw [List.countP_cons, List.countP_cons, List.length_cons]
    cases h : q a <;> simp [h] <;> omega

theorem any_key_eq_mem {α : Type} (m : List (String × α)) (k : String) :
    m.any (fun q => q.1 == k) = decide (k ∈ m.map Prod.fst) := by
  rw [Bool.eq_iff_iff]
  simp only [List.any_eq_true, decide_eq_true_eq, List.mem_map, beq_iff_eq]

theorem filter_mem_length_comm {α : Type} [DecidableEq α] (a b : List α)
    (ha : a.Nodup) (hb : b.Nodup) :
    (a.filter (fun x => decide (x ∈ b))).length =
      (b.filter (fun x => decide (x ∈ a))).length := by
  have hperm : (a.filter (fun x => decide (x ∈ b))).Perm
      (b.filter (fun x => decide (x ∈ a))) := by
    rw [List.perm_ext_iff_of_nodup (ha.filter _) (hb.filter _)]
    intro x
    simp only [List.mem_filter, decide_eq_true_eq]
    tauto
  exact hperm.length_eq

theorem confPairs_length_eq (tsc : String) (S D : List Change) :
    (confPairs tsc S D).length =
      (indexByPk S).countP (fun p => (indexByPk D).any (fun q => q.1 == p.1)) := by
  unfold confPairs
  rw [length_filterMap_eq_countP]
  congr 1
  funext p
  rw [Option.isSome_map', lookup_isSome_iff_any]

/-- Every resolved sheet-side output change is one of the sheet inputs. -/
theorem resolved_sheets_subset (tsc : String) (S D : List Change) :
    ∀ c ∈ (resolve_conflicts tsc S D).resolved_sheets, c ∈ S := by
  rw [resolve_conflicts_eq]
  intro c hc
  simp only at hc
  rcases List.mem_append.1 hc with hm | hm
  · obtain ⟨p, hp, hpe⟩ := List.mem_map.1 hm
    have := (indexByPk_entry S p (List.mem_filter.1 hp).1).2
    rw [← hpe]
    exact this
  · obtain ⟨t, ht, hwt⟩ := List.mem_filterMap.1 hm
    rw [sheetWinOf_eq] at hwt
    by_cases hb : conflictBranch tsc t.2.1 t.2.2 = .decided false
    · rw [if_pos hb] at hwt
      simp only [Option.some.injEq] at hwt
      obtain ⟨p, hp, hpe⟩ := List.mem_filterMap.1 ht
      cases hl : (indexByPk D).lookup p.1 with
      | none => rw [hl] at hpe; simp at hpe
      | some d =>
        rw [hl] at hpe
        simp only [Option.map_some', Option.some.injEq] at hpe
        rw [← hwt, ← hpe]
        exact (indexByPk_entry S p hp).2
    · rw [if_neg hb] at hwt
      simp at hwt

/-- Every resolved MySQL-side output change is one of the MySQL inputs. -/
theorem resolved_mysql_subset (tsc : String) (S D : List Change) :
    ∀ c ∈ (resolve_conflicts tsc S D).resolved_mysql, c ∈ D := by
  rw [resolve_conflicts_eq]
  intro c hc
  simp only at hc
  rcases List.mem_append.1 hc with hm | hm
  · obtain ⟨p, hp, hpe⟩ := List.mem_map.1 hm
    have := (indexByPk_entry D p (List.mem_filter.1 hp).1).2
    rw [← hpe]
    exact this
  · obtain ⟨t, ht, hwt⟩ := List.mem_filterMap.1 hm
    rw [mysqlWinOf_eq] at hwt
    by_cases hb : conflictBranch tsc t.2.1 t.2.2 = .decided false
    · rw [if_pos hb] at hwt
      simp at hwt
    · rw [if_neg hb] at hwt
      simp only [Option.some.injEq] at hwt
      obtain ⟨p, hp, hpe⟩ := List.mem_filterMap.1 ht
      cases hl : (indexByPk D).lookup p.1 with
      | none => rw [hl] at hpe; simp at hpe
      | some d =>
        rw [hl] at hpe
        simp only [Option.map_some', Option.some.injEq] at hpe
        have hd : (p.1, d) ∈ indexByPk D := lookup_mem _ _ _ hl
        have : t.2.2 = d := by rw [← hpe]
        rw [← hwt, this]
        exact (indexByPk_entry D (p.1, d) hd).2

/-- C3.  For duplicate-free inputs, the resolver partitions the changes:
`|for_db| + |for_sheet| + #conflicts = |S| + |D|` (each conflicting key
discards exactly one change), `for_db ⊆ S`, `for_sheet ⊆ D`, and the
quantity `len(S)+len(D)-len(for_db)-len(for_sheet)` that `_sync_cycle`
(sync_engine.py lines 196–202) adds to `status.conflicts_resolved` equals
that number of discarded changes. -/
theorem C3_resolver_partition (tsc : String) (S D : List Change)
    (hS : (S.map (fun c => c.primary_key_value)).Nodup)
    (hD : (D.map (fun c => c.primary_key_value)).Nodup) :
    ((resolve_conflicts tsc S D).resolved_sheets.length +
      (resolve_conflicts tsc S D).resolved_mysql.length +
      (confPairs tsc S D).length = S.length + D.length) ∧
    (∀ c ∈ (resolve_conflicts tsc S D).resolved_sheets, c ∈ S) ∧
    (∀ c ∈ (resolve_conflicts tsc S D).resolved_mysql, c ∈ D) ∧
    (S.length + D.length -
      ((resolve_conflicts tsc S D).resolved_sheets.length +
       (resolve_conflicts tsc S D).resolved_mysql.length) =
      (confPairs tsc S D).length) := by
  have hpart : (resolve_conflicts tsc S D).resolved_sheets.length +
      (resolve_conflicts tsc S D).resolved_mysql.length +
      (confPairs tsc S D).length = S.length + D.length := by
    have hwin := winners_length tsc (confPairs tsc S D)
    have hTlen := confPairs_length_eq tsc S D
    have hcs := countP_bool_split
      (fun p => (indexByPk D).any (fun q => q.1 == p.1)) (indexByPk S)
    have hcd := countP_bool_split
      (fun p => (indexByPk S).any (fun q => q.1 == p.1)) (indexByPk D)
    have hfs : ((indexByPk S).filter
        (fun p => !((indexByPk D).any (fun q => q.1 == p.1)))).length =
        (indexByPk S).countP (fun p => !((indexByPk D).any (fun q => q.1 == p.1))) :=
      (List.countP_eq_length_filter _ _).symm
    have hfd : ((indexByPk D).filter
        (fun p => !((indexByPk S).any (fun q => q.1 == p.1)))).length =
        (indexByPk D).countP (fun p => !((indexByPk S).any (fun q => q.1 == p.1))) :=
      (List.countP_eq_length_filter _ _).symm
    have hsym : (indexByPk S).countP (fun p => (indexByPk D).any (fun q => q.1 == p.1)) =
        (indexByPk D).countP (fun p => (indexByPk S).any (fun q => q.1 == p.1)) := by
      have e₁ : ∀ (A B : List Change),
          (indexByPk A).countP (fun p => (indexByPk B).any (fun q => q.1 == p.1)) =
          (((indexByPk A).map Prod.fst).filter
            (fun k => decide (k ∈ (indexByPk B).map Prod.fst))).length := by
        intro A B
        rw [← List.countP_eq_length_filter, List.countP_map]
        congr 1
        funext p
        simp only [Function.comp]
        rw [any_key_eq_mem]
      rw [e₁ S D, e₁ D S]
      exact filter_mem_length_comm _ _ (keys_indexByPk_nodup S) (keys_indexByPk_nodup D)
    have hlenS : (indexByPk S).length = S.length := by
      rw [indexByPk_of_nodup S hS, List.length_map]
    have hlenD : (indexByPk D).length = D.length := by
      rw [indexByPk_of_nodup D hD, List.length_map]
    rw [resolve_conflicts_eq]
    simp only [List.length_append, List.length_map]
    omega
  refine ⟨hpart, resolved_sheets_subset tsc S D, resolved_mysql_subset tsc S D, ?_⟩
  omega

/-- Witness for C3 on a three-change run with one conflict. -/
theorem C3_resolver_partition_witness :
    ((resolve_conflicts "last_modified" [scenScW, c5ScMissing] [scenDcW]).resolved_sheets.length +
      (resolve_conflicts "last_modified" [scenScW, c5ScMissing] [scenDcW]).resolved_mysql.length +
      (confPairs "last_modified" [scenScW, c5ScMissing] [scenDcW]).length =
      2 + 1) ∧
    (∀ c ∈ (resolve_conflicts "last_modified" [scenScW, c5ScMissing] [scenDcW]).resolved_sheets,
      c ∈ [scenScW, c5ScMissing]) ∧
    (∀ c ∈ (resolve_conflicts "last_modified" [scenScW, c5ScMissing] [scenDcW]).resolved_mysql,
      c ∈ [scenDcW]) ∧
    (2 + 1 -
      ((resolve_conflicts "last_modified" [scenScW, c5ScMissing] [scenDcW]).resolved_sheets.length +
       (resolve_conflicts "last_modified" [scenScW, c5ScMissing] [scenDcW]).resolved_mysql.length) =
      (confPairs "last_modified" [scenScW, c5ScMissing] [scenDcW]).length) := by
  exact C3_resolver_partition "last_modified" [scenScW, c5ScMissing] [scenDcW]
    (by decide) (by decide)

/-! ## Engine failure-path lemmas (C7) and stamping (C8) -/

theorem applyChangesE_preserves (env : Env) (ts : Bool) (chs : List Change) :
    ∀ st : EngineState,
      (applyChangesE env ts st chs).1.mysql_snapshot = st.mysql_snapshot ∧
      (applyChangesE env ts st chs).1.sheets_snapshot = st.sheets_snapshot ∧
      (applyChangesE env ts st chs).1.sync_count = st.sync_count ∧
      (applyChangesE env ts st chs).1.last_sync_time = st.last_sync_time ∧
      (applyChangesE env ts st chs).1.conflicts_resolved = st.conflicts_resolved := by
  induction chs with
  | nil => intro st; exact ⟨rfl, rfl, rfl, rfl, rfl⟩
  | cons ch rest ih =>
    intro st
    unfold applyChangesE
    cases hr : (if ts then env.apply_sheets else env.apply_mysql)
        (changeToCall ts env.now ch) with
    | ok u => simpa using ih st
    | error e => exact ⟨rfl, rfl, rfl, rfl, rfl⟩

theorem applyChangesE_error_state (env : Env) (ts : Bool) (chs : List Change) :
    ∀ (st : EngineState) (e : String),
      (applyChangesE env ts st chs).2.2 = .error e →
      (applyChangesE env ts st chs).1.is_running = false ∧
      (applyChangesE env ts st chs).1.last_error = some e := by
  induction chs with
  | nil => intro st e h; simp only [applyChangesE] at h; cases h
  | cons ch rest ih =>
    intro st e h
    unfold applyChangesE at h ⊢
    cases hr : (if ts then env.apply_sheets else env.apply_mysql)
        (changeToCall ts env.now ch) with
    | ok u =>
      rw [hr] at h
      exact ih st e h
    | error e' =>
      rw [hr] at h
      have he : e' = e := by injection h
      subst he
      exact ⟨rfl, rfl⟩

theorem applyBoth_error (env : Env) (cm cs : Snapshot) (st₁ : EngineState)
    (rs rm : List Change) (st' : EngineState) (calls : List ClientCall) (e : String)
    (h : applyBoth env cm cs st₁ rs rm = (st', calls, .error e)) :
    st'.mysql_snapshot = st₁.mysql_snapshot ∧
    st'.sheets_snapshot = st₁.sheets_snapshot ∧
    st'.sync_count = st₁.sync_count ∧
    st'.last_sync_time = st₁.last_sync_time ∧
    st'.is_running = false ∧
    st'.last_error = some e := by
  unfold applyBoth at h
  cases h₁ : (applyChangesE env false st₁ rs).2.2 with
  | error e₁ =>
    rw [h₁] at h
    simp only [Prod.mk.injEq, Except.error.injEq] at h
    obtain ⟨hst, _, he⟩ := h
    have hp₁ := applyChangesE_preserves env false rs st₁
    subst he
    rw [← hst]
    unfold failState
    exact ⟨hp₁.1, hp₁.2.1, hp₁.2.2.1, hp₁.2.2.2.1, rfl, rfl⟩
  | ok u =>
    rw [h₁] at h
    cases h₂ : (applyChangesE env true (applyChangesE env false st₁ rs).1 rm).2.2 with
    | error e₂ =>
      rw [h₂] at h
      simp only [Prod.mk.injEq, Except.error.injEq] at h
      obtain ⟨hst, _, he⟩ := h
      have hp₁ := applyChangesE_preserves env false rs st₁
      have hp₂ := applyChangesE_preserves env true rm (applyChangesE env false st₁ rs).1
      subst he
      rw [← hst]
      unfold failState
      refine ⟨?_, ?_, ?_, ?_, rfl, rfl⟩
      · rw [hp₂.1, hp₁.1]
      · rw [hp₂.2.1, hp₁.2.1]
      · rw [hp₂.2.2.1, hp₁.2.2.1]
      · rw [hp₂.2.2.2.1, hp₁.2.2.2.1]
    | ok u₂ =>
      rw [h₂] at h
      simp only [Prod.mk.injEq] at h
      exact absurd h.2.2 (by simp)

/-- C7.  If the fetches and detections of a cycle succeed but applying
fails, the cycle leaves both baselines, the cycle counter, and the
last-cycle time exactly as they were, stops the engine
(`is_running = false`, `last_error` set to the failure message), and
propagates the failure (the cycle's result is that error, which makes the
`start()` loop exit). -/
theorem C7_apply_failure_preserves_baselines (env : Env) (st : EngineState)
    (bm bs cm cs : Snapshot) (mchs schs : List Change)
    (st' : EngineState) (calls : List ClientCall) (e : String)
    (hbm : st.mysql_snapshot = some bm) (hbs : st.sheets_snapshot = some bs)
    (hfm : env.fetch_mysql = .ok cm) (hfs : env.fetch_sheets = .ok cs)
    (hdm : detect_changes "id" bm cm .mysql = .ok mchs)
    (hds : detect_changes "id" bs cs .sheets = .ok schs)
    (hrun : syncCycle env st = (st', calls, .error e)) :
    st'.mysql_snapshot = some bm ∧ st'.sheets_snapshot = some bs ∧
    st'.is_running = false ∧ st'.last_error = some e ∧
    st'.sync_count = st.sync_count ∧ st'.last_sync_time = st.last_sync_time := by
  unfold syncCycle at hrun
  rw [hfm, hfs, hbm, hbs] at hrun
  dsimp only at hrun
  rw [hdm, hds] at hrun
  dsimp only at hrun
  have := applyBoth_error env cm cs _ _ _ st' calls e hrun
  simp only at this
  exact ⟨this.1, this.2.1, this.2.2.2.2.1, this.2.2.2.2.2, this.2.2.1, this.2.2.2.1⟩

/-- A failing-apply environment for the C7 witness. -/
def c7Env : Env :=
  { fetch_mysql := .ok ⟨["id", "name", "last_modified"],
      [[.num 1, .text "A", .text "2026-01-02 00:00:00"]]⟩,
    fetch_sheets := .ok ⟨["id", "name", "last_modified"],
      [[.text "1", .text "A", .text "2026-01-01 00:00:00"]]⟩,
    apply_mysql := fun _ => .ok (),
    apply_sheets := fun _ => .error "sheets write failed",
    now := ⟨2026, 1, 14, 10, 0, 0, 0⟩ }

/-- Engine state before the failing cycle of the C7 witness. -/
def c7St : EngineState :=
  { mysql_snapshot := some ⟨["id", "name", "last_modified"],
      [[.num 1, .text "A", .text "2026-01-01 00:00:00"]]⟩,
    sheets_snapshot := some ⟨["id", "name", "last_modified"],
      [[.text "1", .text "A", .text "2026-01-01 00:00:00"]]⟩,
    is_running := true, last_sync_time := none, sync_count := 3,
    last_error := none, conflicts_resolved := 0 }

/-- Witness for C7: a cycle whose sheet-side apply fails keeps the
baselines and counters and stops the engine with the error recorded. -/
theorem C7_apply_failure_preserves_baselines_witness :
    (syncCycle c7Env c7St).1.mysql_snapshot = c7St.mysql_snapshot ∧
    (syncCycle c7Env c7St).1.sheets_snapshot = c7St.sheets_snapshot ∧
    (syncCycle c7Env c7St).1.is_running = false ∧
    (syncCycle c7Env c7St).1.last_error = some "sheets write failed" ∧
    (syncCycle c7Env c7St).1.sync_count = c7St.sync_count ∧
    (syncCycle c7Env c7St).1.last_sync_time = c7St.last_sync_time := by
  have h := C7_apply_failure_preserves_baselines c7Env c7St
    ⟨["id", "name", "last_modified"], [[.num 1, .text "A", .text "2026-01-01 00:00:00"]]⟩
    ⟨["id", "name", "last_modified"], [[.text "1", .text "A", .text "2026-01-01 00:00:00"]]⟩
    ⟨["id", "name", "last_modified"], [[.num 1, .text "A", .text "2026-01-02 00:00:00"]]⟩
    ⟨["id", "name", "last_modified"], [[.text "1", .text "A", .text "2026-01-01 00:00:00"]]⟩
    [⟨.UPDATE, "1", .mysql, [("last_modified", .text "2026-01-02 00:00:00")]⟩]
    []
    (syncCycle c7Env c7St).1 (syncCycle c7Env c7St).2.1 "sheets write failed"
    (by rfl) (by rfl) (by rfl) (by rfl) (by rfl) (by rfl) (by rfl)
  exact ⟨h.1, h.2.1, h.2.2.1, h.2.2.2.1, h.2.2.2.2.1, h.2.2.2.2.2⟩

/-- An always-succeeding environment for trace inspection. -/
def okEnv : Env :=
  { fetch_mysql := .ok ⟨[], []⟩,
    fetch_sheets := .ok ⟨[], []⟩,
    apply_mysql := fun _ => .ok (),
    apply_sheets := fun _ => .ok (),
    now := ⟨2026, 1, 14, 10, 0, 0, 0⟩ }

/-- A fresh engine state. -/
def st0 : EngineState :=
  { mysql_snapshot := none, sheets_snapshot := none, is_running := true,
    last_sync_time := none, sync_count := 0, last_error := none,
    conflicts_resolved := 0 }

/-- An INSERT whose payload lacks `last_modified`. -/
def c8Ins : Change :=
  ⟨.INSERT, "7", .mysql, [("id", .text "7"), ("name", .text "G")]⟩

/-- Counterexample to C8 as stated: an INSERT applied to the spreadsheet
side whose payload lacks `last_modified` is handed to the sheets client
unchanged — no timestamp is stamped, because only the UPDATE branch of
`_apply_changes` stamps. -/
theorem C8_counterexample_insert_not_stamped :
    (applyChangesE okEnv true st0 [c8Ins]).2.1 =
      [.insertRow [("id", .text "7"), ("name", .text "G")]] ∧
    ([("id", .text "7"), ("name", .text "G")] : List (String × Cell)).lookup
      "last_modified" = none :=
  ⟨rfl, rfl⟩

/-- C8 (amended).  Only spreadsheet-bound UPDATE changes whose payload
lacks `last_modified` are stamped with the wall clock formatted
`YYYY-MM-DD HH:MM:SS` (appended to the payload before invoking the
client); an UPDATE already carrying the column, every INSERT and DELETE,
and every database-bound change are passed through unstamped. -/
theorem C8_stamp_only_sheet_updates (now : DateTime) (ch : Change) :
    (ch.operation = .UPDATE →
      (ch.data.any (fun p => p.1 == "last_modified")) = false →
      changeToCall true now ch = .updateRowByPk ch.primary_key_value
        (ch.data ++ [("last_modified", .text (formatDateTime now))])) ∧
    (ch.operation = .UPDATE →
      (ch.data.any (fun p => p.1 == "last_modified")) = true →
      changeToCall true now ch = .updateRowByPk ch.primary_key_value ch.data) ∧
    (ch.operation = .INSERT →
      ∀ t : Bool, changeToCall t now ch = .insertRow ch.data) ∧
    (ch.operation = .DELETE →
      ∀ t : Bool, changeToCall t now ch = .deleteRowByPk ch.primary_key_value) ∧
    (ch.operation = .UPDATE →
      changeToCall false now ch = .updateRowByPk ch.primary_key_value ch.data) := by
  refine ⟨?_, ?_, ?_, ?_, ?_⟩
  · intro hop habs
    unfold changeToCall
    rw [hop]
    simp only [Bool.true_and, habs, Bool.not_false, if_true]
    unfold dictInsert
    rw [habs]
    simp
  · intro hop hpres
    unfold changeToCall
    rw [hop]
    simp [hpres]
  · intro hop t
    unfold changeToCall
    rw [hop]
  · intro hop t
    unfold changeToCall
    rw [hop]
  · intro hop
    unfold changeToCall
    rw [hop]
    simp

/-- An UPDATE whose payload lacks `last_modified`, for the C8 witness. -/
def c8Upd : Change := ⟨.UPDATE, "7", .mysql, [("name", .text "G2")]⟩

/-- Witness for the amended C8: the sheet-bound UPDATE gets the formatted
wall clock appended, and the same change bound for the database does
not. -/
theorem C8_stamp_only_sheet_updates_witness :
    changeToCall true ⟨2026, 1, 14, 10, 0, 0, 0⟩ c8Upd =
      .updateRowByPk "7"
        [("name", .text "G2"), ("last_modified", .text "2026-01-14 10:00:00")] ∧
    changeToCall false ⟨2026, 1, 14, 10, 0, 0, 0⟩ c8Upd =
      .updateRowByPk "7" [("name", .text "G2")] := by
  have h := C8_stamp_only_sheet_updates ⟨2026, 1, 14, 10, 0, 0, 0⟩ c8Upd
  constructor
  · have h₁ := h.1 (by rfl) (by rfl)
    rw [h₁]
    rfl
  · exact h.2.2.2.2 (by rfl)

theorem findRowAux_error (pkc : String) (headers : List String) (pk : String)
    (rows : List (List String))
    (h : ∀ i, colIdx headers pkc = some i →
      ∀ r ∈ rows, (sheetCell r i == pk) = false) :
    ∀ idx : Nat, ∃ e, findRowAux pkc headers pk rows idx = .error e := by
  induction rows with
  | nil => intro idx; exact ⟨_, rfl⟩
  | cons r rest ih =>
    intro idx
    unfold findRowAux
    cases hio : colIdx headers pkc with
    | none => exact ⟨_, rfl⟩
    | some i =>
      have hc := h i hio r (List.mem_cons_self _ _)
      simp only [hc, Bool.false_eq_true, if_false]
      exact ih (fun j hj r' hr' => h j hj r' (List.mem_cons_of_mem _ hr')) (idx + 1)

/-- Counterexample to C9 as stated: updating a primary key absent from
the sheet raises (`_find_row_by_pk`'s ValueError propagates out of
`update_row_by_pk`) instead of silently no-oping. -/
theorem C9_counterexample_update_missing_pk_raises :
    update_row_by_pk "id" [["id", "name"], ["1", "A"]] "2" [("name", "X")] =
      .error "No row found with id=2" := rfl

/-- C9 (amended).  For every primary key that matches no data row of the
sheet (under the string-cast comparison of `_find_row_by_pk`), the
spreadsheet-side `update_row_by_pk` raises an error — it does not return
an updated sheet, so no cell is modified — rather than silently
no-oping as the spec claims. -/
theorem C9_update_missing_pk_errors (pkc : String) (grid : List (List String))
    (pk : String) (data : List (String × String))
    (habs : ∀ i, colIdx (grid.headD []) pkc = some i →
      ∀ r ∈ grid.tail, (sheetCell r i == pk) = false) :
    ∃ e, update_row_by_pk pkc grid pk data = .error e := by
  obtain ⟨e, he⟩ := findRowAux_error pkc (grid.headD []) pk grid.tail habs 0
  refine ⟨e, ?_⟩
  unfold update_row_by_pk find_row_by_pk
  rw [he]

/-- Witness for the amended C9 at a concrete sheet and absent key. -/
theorem C9_update_missing_pk_errors_witness :
    ∃ e, update_row_by_pk "id" [["id", "name"], ["1", "A"], ["3", "C"]] "2"
      [("name", "X")] = .error e := by
  exact C9_update_missing_pk_errors "id" [["id", "name"], ["1", "A"], ["3", "C"]]
    "2" [("name", "X")] (by decide)

/-! ## Column-index and key-set lemmas -/

theorem colIdx_eq_none_iff (cols : List String) (c : String) :
    colIdx cols c = none ↔ c ∉ cols := by
  induction cols with
  | nil => simp [colIdx]
  | cons c₀ rest ih =>
    unfold colIdx
    by_cases h : c₀ = c
    · simp [h]
    · have hb : (c₀ == c) = false := by simp [h]
      rw [hb]
      simp only [Bool.false_eq_true, if_false, Option.map_eq_none', List.mem_cons]
      rw [ih]
      constructor
      · intro hn hc
        rcases hc with hc | hc
        · exact h hc.symm
        · exact hn hc
      · intro hn
        exact fun hc => hn (Or.inr hc)

theorem colIdx_isSome_iff_mem (cols : List String) (c : String) :
    (colIdx cols c).isSome = true ↔ c ∈ cols := by
  rw [Option.isSome_iff_ne_none]
  constructor
  · intro h
    by_contra hc
    exact h ((colIdx_eq_none_iff cols c).2 hc)
  · intro h hc
    exact ((colIdx_eq_none_iff cols c).1 hc) h

theorem colIdx_get (cols : List String) (c : String) :
    ∀ i : Nat, colIdx cols c = some i → cols.get? i = some c := by
  induction cols with
  | nil => intro i h; simp [colIdx] at h
  | cons c₀ rest ih =>
    intro i h
    unfold colIdx at h
    by_cases hc : c₀ = c
    · have hb : (c₀ == c) = true := by simp [hc]
      rw [hb] at h
      simp only [if_true, Option.some.injEq] at h
      subst h
      simp [hc]
    · have hb : (c₀ == c) = false := by simp [hc]
      rw [hb] at h
      simp only [Bool.false_eq_true, if_false, Option.map_eq_some'] at h
      obtain ⟨j, hj, hji⟩ := h
      subst hji
      simpa using ih j hj

theorem colIdx_lt_length (cols : List String) (c : String) (i : Nat)
    (h : colIdx cols c = some i) : i < cols.length := by
  have := colIdx_get cols c i h
  by_contra hlt
  rw [List.get?_eq_none.2 (by omega)] at this
  cases this

theorem mem_dedupKeys (l : List String) (a : String) :
    a ∈ dedupKeys l ↔ a ∈ l := by
  induction l with
  | nil => simp [dedupKeys]
  | cons x xs ih =>
    unfold dedupKeys
    by_cases hx : xs.contains x
    · rw [if_pos hx, ih]
      have hxm : x ∈ xs := by
        rw [List.contains_iff_exists_mem_beq] at hx
        obtain ⟨y, hy, hxy⟩ := hx
        rw [beq_iff_eq] at hxy
        rwa [hxy]
      simp only [List.mem_cons]
      constructor
      · exact Or.inr
      · rintro (rfl | h)
        · exact hxm
        · exact h
    · rw [if_neg hx]
      simp [ih]

theorem nodup_dedupKeys (l : List String) : (dedupKeys l).Nodup := by
  induction l with
  | nil => exact List.nodup_nil
  | cons x xs ih =>
    unfold dedupKeys
    by_cases hx : xs.contains x
    · rwa [if_pos hx]
    · rw [if_neg hx]
      refine List.nodup_cons.2 ⟨?_, ih⟩
      intro hmem
      rw [mem_dedupKeys] at hmem
      exact hx (by
        rw [List.contains_iff_exists_mem_beq]
        exact ⟨x, hmem, by simp⟩)

theorem cellAt?_eq_some_cellAt (cols : List String) (r : List Cell) (c : String)
    (h : c ∈ cols) : cellAt? cols r c = some (cellAt cols r c) := by
  unfold cellAt? cellAt
  cases hio : colIdx cols c with
  | none => exact absurd ((colIdx_eq_none_iff cols c).1 hio) (by simpa using h)
  | some i => rfl

theorem cellAt?_eq_none_iff (cols : List String) (r : List Cell) (c : String) :
    cellAt? cols r c = none ↔ c ∉ cols := by
  unfold cellAt?
  cases hio : colIdx cols c with
  | none => simpa using (colIdx_eq_none_iff cols c).1 hio
  | some i =>
    simp only [Option.some.injEq]
    constructor
    · intro h; cases h
    · intro h
      exact absurd hio (by rw [(colIdx_eq_none_iff cols c).2 h]; simp)

/-! ## Delta characterization (C4, C6, C2) -/

/-- The Boolean per-column difference test of the detector's UPDATE loop:
string-cast values with null/missing as the empty string. -/
def colDiff (oldCols newCols : List String) (oldRow newRow : List Cell)
    (c : String) : Bool :=
  cmpStr (cellAt oldCols oldRow c) != cmpStr (cellAt newCols newRow c)

theorem deltaCols_ok_char (oldCols newCols : List String) (oldRow newRow : List Cell) :
    ∀ (cols : List String) (delta : List (String × Cell)),
      deltaCols oldCols newCols oldRow newRow cols = .ok delta →
      delta = (cols.filter (colDiff oldCols newCols oldRow newRow)).map
        (fun c => (c, cellAt newCols newRow c)) ∧
      ∀ c ∈ cols, c ∈ oldCols := by
  intro cols
  induction cols with
  | nil =>
    intro delta h
    simp only [deltaCols, Except.ok.injEq] at h
    subst h
    exact ⟨rfl, by intro c hc; simp at hc⟩
  | cons c cs ih =>
    intro delta h
    unfold deltaCols at h
    cases hc : cellAt? oldCols oldRow c with
    | none => rw [hc] at h; cases h
    | some ov =>
      rw [hc] at h
      cases hrest : deltaCols oldCols newCols oldRow newRow cs with
      | error e => rw [hrest] at h; cases h
      | ok rest =>
        rw [hrest] at h
        simp only [Except.ok.injEq] at h
        obtain ⟨hrc, hmem⟩ := ih rest hrest
        have hcin : c ∈ oldCols := by
          by_contra hnc
          rw [(cellAt?_eq_none_iff oldCols oldRow c).2 hnc] at hc
          cases hc
        have hov : ov = cellAt oldCols oldRow c := by
          rw [cellAt?_eq_some_cellAt oldCols oldRow c hcin] at hc
          exact (Option.some.injEq _ _ ▸ hc).symm
        constructor
        · rw [← h, hrc]
          subst hov
          by_cases hdiff : cmpStr (cellAt oldCols oldRow c) ≠
              cmpStr (cellAt newCols newRow c)
          · rw [if_pos hdiff, List.filter_cons_of_pos
              (by simp [colDiff, bne_iff_ne, hdiff]), List.map_cons]
          · rw [if_neg hdiff, List.filter_cons_of_neg
              (by simp [colDiff, bne_iff_ne]; simpa using hdiff)]
        · intro c' hc'
          rcases List.mem_cons.1 hc' with h' | h'
          · rwa [h']
          · exact hmem c' h'

theorem deltaCols_error_iff (oldCols newCols : List String)
    (oldRow newRow : List Cell) :
    ∀ cols : List String,
      (∃ e, deltaCols oldCols newCols oldRow newRow cols = .error e) ↔
      ∃ c ∈ cols, c ∉ oldCols := by
  intro cols
  induction cols with
  | nil =>
    simp only [deltaCols]
    constructor
    · rintro ⟨e, he⟩; cases he
    · rintro ⟨c, hc, _⟩; simp at hc
  | cons c cs ih =>
    unfold deltaCols
    cases hc : cellAt? oldCols oldRow c with
    | none =>
      constructor
      · intro _
        exact ⟨c, List.mem_cons_self _ _, (cellAt?_eq_none_iff oldCols oldRow c).1 hc⟩
      · intro _
        exact ⟨_, rfl⟩
    | some ov =>
      have hcin : c ∈ oldCols := by
        by_contra hnc
        rw [(cellAt?_eq_none_iff oldCols oldRow c).2 hnc] at hc
        cases hc
      cases hrest : deltaCols oldCols newCols oldRow newRow cs with
      | error e =>
        constructor
        · intro _
          obtain ⟨c', hc', hnc'⟩ := ih.1 ⟨e, hrest⟩
          exact ⟨c', List.mem_cons_of_mem _ hc', hnc'⟩
        · intro _
          exact ⟨e, rfl⟩
      | ok rest =>
        constructor
        · rintro ⟨e, he⟩
          by_cases hdiff : cmpStr ov ≠ cmpStr (cellAt newCols newRow c) <;>
            simp [hdiff] at he
        · rintro ⟨c', hc', hnc'⟩
          rcases List.mem_cons.1 hc' with h' | h'
          · exact absurd hcin (h' ▸ hnc')
          · exact absurd (ih.2 ⟨c', h', hnc'⟩) (by
              rintro ⟨e, he⟩
              rw [hrest] at he
              cases he)

theorem updatesFor_mem_char (pkc : String) (old new : Snapshot) (src : Source) :
    ∀ (pks : List String) (ups : List Change),
      updatesFor pkc old new src pks = .ok ups →
      ∀ ch ∈ ups, ∃ pk delta,
        pk ∈ pks ∧
        ch = ⟨.UPDATE, pk, src, delta⟩ ∧ delta ≠ [] ∧
        deltaCols old.cols new.cols (firstRowFor pkc old pk)
          (firstRowFor pkc new pk) new.cols = .ok delta := by
  intro pks
  induction pks with
  | nil =>
    intro ups h ch hch
    simp only [updatesFor, Except.ok.injEq] at h
    subst h
    simp at hch
  | cons pk rest ih =>
    intro ups h ch hch
    unfold updatesFor at h
    cases hd : deltaCols old.cols new.cols (firstRowFor pkc old pk)
        (firstRowFor pkc new pk) new.cols with
    | error e => rw [hd] at h; cases h
    | ok delta =>
      rw [hd] at h
      cases hu : updatesFor pkc old new src rest with
      | error e => rw [hu] at h; cases h
      | ok more =>
        rw [hu] at h
        simp only [Except.ok.injEq] at h
        subst h
        by_cases hde : delta.isEmpty
        · rw [if_pos hde] at hch
          obtain ⟨pk', delta', hmem, hche, hne, hdc⟩ := ih more hu ch hch
          exact ⟨pk', delta', List.mem_cons_of_mem _ hmem, hche, hne, hdc⟩
        · rw [if_neg hde] at hch
          rcases List.mem_cons.1 hch with he | hm
          · exact ⟨pk, delta, List.mem_cons_self _ _, he, by
              intro hnil
              rw [hnil] at hde
              exact hde rfl, hd⟩
          · obtain ⟨pk', delta', hmem, hche, hne, hdc⟩ := ih more hu ch hm
            exact ⟨pk', delta', List.mem_cons_of_mem _ hmem, hche, hne, hdc⟩

theorem updatesFor_error_iff (pkc : String) (old new : Snapshot) (src : Source) :
    ∀ pks : List String,
      (∃ e, updatesFor pkc old new src pks = .error e) ↔
      (pks ≠ [] ∧ ∃ c ∈ new.cols, c ∉ old.cols) := by
  intro pks
  induction pks with
  | nil =>
    simp only [updatesFor]
    constructor
    · rintro ⟨e, he⟩; cases he
    · rintro ⟨h, _⟩; exact absurd rfl h
  | cons pk rest ih =>
    unfold updatesFor
    cases hd : deltaCols old.cols new.cols (firstRowFor pkc old pk)
        (firstRowFor pkc new pk) new.cols with
    | error e =>
      constructor
      · intro _
        refine ⟨by simp, ?_⟩
        exact (deltaCols_error_iff old.cols new.cols _ _ new.cols).1 ⟨e, hd⟩
      · intro _
        exact ⟨e, rfl⟩
    | ok delta =>
      have hnomiss : ¬ ∃ c ∈ new.cols, c ∉ old.cols := by
        intro hmiss
        obtain ⟨e, he⟩ := (deltaCols_error_iff old.cols new.cols
          (firstRowFor pkc old pk) (firstRowFor pkc new pk) new.cols).2 hmiss
        rw [hd] at he
        cases he
      cases hu : updatesFor pkc old new src rest with
      | error e =>
        exact absurd (And.right (ih.1 ⟨e, hu⟩)) hnomiss
      | ok more =>
        constructor
        · rintro ⟨e, he⟩
          by_cases hde : delta.isEmpty <;> simp [hde] at he
        · rintro ⟨_, hmiss⟩
          exact absurd hmiss hnomiss

theorem contains_eq_false_iff (l : List String) (a : String) :
    l.contains a = false ↔ a ∉ l := by
  constructor
  · intro h hm
    have h' : l.contains a = true := List.elem_eq_true_of_mem hm
    rw [h] at h'
    cases h'
  · intro hm
    cases h : l.contains a
    · rfl
    · exact absurd (List.mem_of_elem_eq_true h) hm

/-- C4.  Every UPDATE a successful detection emits has a non-empty
payload holding exactly the columns of the new first-occurrence row whose
string-cast value (null/missing as the empty string) differs from the old
first-occurrence row, each mapped to its raw new value. -/
theorem C4_update_payload_exact (pkc : String) (old new : Snapshot) (src : Source)
    (chs : List Change) (h : detect_changes pkc old new src = .ok chs) :
    ∀ ch ∈ chs, ch.operation = .UPDATE →
      ch.data ≠ [] ∧
      ch.data = (new.cols.filter (colDiff old.cols new.cols
          (firstRowFor pkc old ch.primary_key_value)
          (firstRowFor pkc new ch.primary_key_value))).map
        (fun c => (c, cellAt new.cols (firstRowFor pkc new ch.primary_key_value) c)) := by
  unfold detect_changes at h
  by_cases h₁ : (old.isEmpty && new.isEmpty) = true
  · rw [if_pos h₁] at h
    simp only [Except.ok.injEq] at h
    subst h
    intro ch hch
    simp at hch
  rw [if_neg h₁] at h
  by_cases h₂ : (!old.isEmpty && !(old.cols.contains pkc)) = true
  · rw [if_pos h₂] at h
    simp at h
  rw [if_neg h₂] at h
  by_cases h₃ : (!new.isEmpty && !(new.cols.contains pkc)) = true
  · rw [if_pos h₃] at h
    simp at h
  rw [if_neg h₃] at h
  cases hu : updatesFor pkc old new src (commonPks pkc old new) with
  | error e => rw [hu] at h; simp at h
  | ok ups =>
    rw [hu] at h
    simp only [Except.ok.injEq] at h
    intro ch hch hop
    rw [← h] at hch
    rcases List.mem_append.1 hch with hm | hm
    · rcases List.mem_append.1 hm with hm' | hm'
      · obtain ⟨k, _, hk⟩ := List.mem_map.1 hm'
        rw [← hk] at hop
        cases hop
      · obtain ⟨k, _, hk⟩ := List.mem_map.1 hm'
        rw [← hk] at hop
        cases hop
    · obtain ⟨pk, delta, _, hche, hne, hdc⟩ :=
        updatesFor_mem_char pkc old new src _ ups hu ch hm
      obtain ⟨hchar, _⟩ := deltaCols_ok_char old.cols new.cols _ _ new.cols delta hdc
      subst hche
      exact ⟨hne, hchar⟩

/-- Old snapshot for the C4 witness. -/
def c4Old : Snapshot :=
  ⟨["id", "name", "last_modified"],
   [[.text "2", .text "B", .text "t1"]]⟩

/-- New snapshot for the C4 witness: name changed. -/
def c4New : Snapshot :=
  ⟨["id", "name", "last_modified"],
   [[.text "2", .text "B2", .text "t2"]]⟩

/-- The UPDATE the detector emits for the C4 witness. -/
def c4Upd : Change :=
  ⟨.UPDATE, "2", .sheets, [("name", .text "B2"), ("last_modified", .text "t2")]⟩

/-- Witness for C4 at a concrete snapshot pair. -/
theorem C4_update_payload_exact_witness :
    c4Upd.data ≠ [] ∧
    c4Upd.data = (c4New.cols.filter (colDiff c4Old.cols c4New.cols
        (firstRowFor "id" c4Old c4Upd.primary_key_value)
        (firstRowFor "id" c4New c4Upd.primary_key_value))).map
      (fun c => (c, cellAt c4New.cols (firstRowFor "id" c4New c4Upd.primary_key_value) c)) := by
  exact C4_update_payload_exact "id" c4Old c4New .sheets [c4Upd] (by rfl) c4Upd
    (List.mem_singleton_self _) (by rfl)

/-- C6 (amended).  Detection fails exactly when a *non-empty* snapshot
lacks the primary-key column (empty snapshots are exempt from the schema
check), or when a key common to both snapshots forces the per-column
comparison to index the old row with a column absent from the old
snapshot (a pandas `KeyError`).  Duplicate primary keys never cause a
failure. -/
theorem C6_detect_failure_characterization (pkc : String) (old new : Snapshot)
    (src : Source) :
    (∃ e, detect_changes pkc old new src = .error e) ↔
      ((!old.isEmpty ∧ pkc ∉ old.cols) ∨ (!new.isEmpty ∧ pkc ∉ new.cols) ∨
       (commonPks pkc old new ≠ [] ∧ ∃ c ∈ new.cols, c ∉ old.cols)) := by
  unfold detect_changes
  by_cases h₁ : (old.isEmpty && new.isEmpty) = true
  · rw [if_pos h₁]
    simp only [Bool.and_eq_true] at h₁
    constructor
    · rintro ⟨e, he⟩; cases he
    · rintro (⟨h, _⟩ | ⟨h, _⟩ | ⟨h, _⟩)
      · rw [h₁.1] at h; cases h
      · rw [h₁.2] at h; cases h
      · exact absurd (by
          unfold commonPks snapPks
          rw [if_pos h₁.1]
          rfl) h
  rw [if_neg h₁]
  by_cases h₂ : (!old.isEmpty && !(old.cols.contains pkc)) = true
  · rw [if_pos h₂]
    simp only [Bool.and_eq_true, Bool.not_eq_true'] at h₂
    constructor
    · intro _
      refine Or.inl ⟨by simp [h₂.1], ?_⟩
      intro hmem
      exact (contains_eq_false_iff _ _).1 h₂.2 hmem
    · intro _
      exact ⟨_, rfl⟩
  rw [if_neg h₂]
  by_cases h₃ : (!new.isEmpty && !(new.cols.contains pkc)) = true
  · rw [if_pos h₃]
    simp only [Bool.and_eq_true, Bool.not_eq_true'] at h₃
    constructor
    · intro _
      refine Or.inr (Or.inl ⟨by simp [h₃.1], ?_⟩)
      intro hmem
      exact (contains_eq_false_iff _ _).1 h₃.2 hmem
    · intro _
      exact ⟨_, rfl⟩
  rw [if_neg h₃]
  have hD1 : ¬ (!old.isEmpty ∧ pkc ∉ old.cols) := by
    intro ⟨ha, hb⟩
    apply h₂
    simp only [Bool.and_eq_true, ha, true_and, Bool.not_eq_true']
    exact (contains_eq_false_iff _ _).2 hb
  have hD2 : ¬ (!new.isEmpty ∧ pkc ∉ new.cols) := by
    intro ⟨ha, hb⟩
    apply h₃
    simp only [Bool.and_eq_true, ha, true_and, Bool.not_eq_true']
    exact (contains_eq_false_iff _ _).2 hb
  cases hu : updatesFor pkc old new src (commonPks pkc old new) with
  | error e =>
    constructor
    · intro _
      exact Or.inr (Or.inr ((updatesFor_error_iff pkc old new src _).1 ⟨e, hu⟩))
    · intro _
      exact ⟨e, rfl⟩
  | ok ups =>
    constructor
    · rintro ⟨e, he⟩; cases he
    · rintro (hd | hd | hd)
      · exact absurd hd hD1
      · exact absurd hd hD2
      · obtain ⟨e, he⟩ := (updatesFor_error_iff pkc old new src _).2 hd
        rw [hu] at he
        cases he

/-- Old snapshot of the C6 counterexample: empty, lacking the pk
column. -/
def c6Old : Snapshot := ⟨["name"], []⟩

/-- New snapshot of the C6 counterexample. -/
def c6New : Snapshot := ⟨["id"], [[.text "1"]]⟩

/-- Counterexample to C6 as stated: the old snapshot lacks the configured
primary-key column, yet detection succeeds, because the schema check is
skipped for empty DataFrames — refuting "fails iff the old snapshot lacks
the primary-key column or the new snapshot lacks it". -/
theorem C6_counterexample_empty_snapshot_exempt :
    "id" ∉ c6Old.cols ∧
    detect_changes "id" c6Old c6New .sheets =
      .ok [⟨.INSERT, "1", .sheets, [("id", .text "1")]⟩] := by
  exact ⟨by decide, by rfl⟩

/-- Witness for the amended C6: a non-empty old snapshot lacking the pk
column fails, per the right-to-left direction of the characterization. -/
theorem C6_detect_failure_characterization_witness :
    ∃ e, detect_changes "id" (⟨["name"], [[.text "A"]]⟩ : Snapshot) c6New
      .sheets = .error e := by
  exact (C6_detect_failure_characterization "id" ⟨["name"], [[.text "A"]]⟩
    c6New .sheets).2 (Or.inl ⟨by decide, by decide⟩)

/-! ## Applying detector output (C2): row and cell lemmas -/

theorem applyChangeSpec_cols (pkc : String) (s : Snapshot) (ch : Change) :
    (applyChangeSpec pkc s ch).cols = s.cols := by
  unfold applyChangeSpec
  cases ch.operation <;> rfl

theorem applyChangesSpec_cols (pkc : String) (chs : List Change) :
    ∀ s : Snapshot, (applyChangesSpec pkc s chs).cols = s.cols := by
  induction chs with
  | nil => intro s; rfl
  | cons ch rest ih =>
    intro s
    unfold applyChangesSpec
    rw [List.foldl_cons]
    have := ih (applyChangeSpec pkc s ch)
    unfold applyChangesSpec at this
    rw [this, applyChangeSpec_cols]

theorem cellAt_eq_of_colIdx (cols : List String) (r : List Cell) (c : String)
    (i : Nat) (h : colIdx cols c = some i) :
    cellAt cols r c = (r.get? i).getD Cell.null := by
  unfold cellAt
  rw [h]

theorem cellAt_eq_null_of_colIdx_none (cols : List String) (r : List Cell)
    (c : String) (h : colIdx cols c = none) : cellAt cols r c = .null := by
  unfold cellAt
  rw [h]

theorem get?_set_self_of_lt {α : Type} (l : List α) (i : Nat) (a : α)
    (h : i < l.length) : (l.set i a).get? i = some a := by
  rw [List.get?_set_eq]
  cases hg : l.get? i with
  | none => exact absurd (List.get?_eq_none.1 hg) (by omega)
  | some b => rfl

theorem cellAt_map_cols (cols : List String) (g : String → Cell) (c : String)
    (i : Nat) (h : colIdx cols c = some i) :
    cellAt cols (cols.map g) c = g c := by
  rw [cellAt_eq_of_colIdx cols _ c i h, List.get?_map, colIdx_get cols c i h]
  rfl

theorem lookup_zip (r : List Cell) (cols : List String) (c : String) :
    (cols.zip r).lookup c = (colIdx cols c).bind (fun i => r.get? i) := by
  induction cols generalizing r with
  | nil => simp [colIdx, lookup_nil]
  | cons c₀ rest ih =>
    cases r with
    | nil =>
      simp only [List.zip_nil_right, lookup_nil]
      cases hio : colIdx (c₀ :: rest) c with
      | none => rfl
      | some i => simp
    | cons v vs =>
      simp only [List.zip_cons_cons]
      rw [lookup_cons]
      unfold colIdx
      by_cases hc : c₀ = c
      · have hb : (c₀ == c) = true := by simp [hc]
        rw [hb]
        simp [hc]
      · have hb : (c₀ == c) = false := by simp [hc]
        rw [hb]
        have hcc : ¬ c = c₀ := fun h => hc h.symm
        simp only [hcc, if_false, Bool.false_eq_true, ih vs]
        cases colIdx rest c <;> simp

theorem cellAt_payloadToRow_zip (cols : List String) (r : List Cell) (c : String) :
    cellAt cols (payloadToRow cols (cols.zip r)) c = cellAt cols r c := by
  cases hio : colIdx cols c with
  | none => unfold cellAt; rw [hio]
  | some i =>
    unfold payloadToRow
    rw [cellAt_map_cols cols _ c i hio]
    rw [lookup_zip, hio]
    unfold cellAt
    rw [hio]
    rfl

theorem rowView_payloadToRow_zip (cols : List String) (r : List Cell) :
    rowView cols (payloadToRow cols (cols.zip r)) = rowView cols r := by
  unfold rowView
  apply List.map_congr_left
  intro c _
  rw [cellAt_payloadToRow_zip]

theorem overwriteRow_length (cols : List String) (payload : List (String × Cell)) :
    ∀ r : List Cell, (overwriteRow cols r payload).length = r.length := by
  induction payload with
  | nil => intro r; rfl
  | cons p rest ih =>
    intro r
    unfold overwriteRow
    rw [List.foldl_cons]
    have hstep : (match colIdx cols p.1 with
        | some i => r.set i p.2
        | none => r).length = r.length := by
      cases colIdx cols p.1 <;> simp
    have := ih (match colIdx cols p.1 with
        | some i => r.set i p.2
        | none => r)
    unfold overwriteRow at this
    rw [this, hstep]

theorem lookup_eq_none_of_not_mem_keys {α : Type} (m : List (String × α))
    (k : String) (h : k ∉ m.map Prod.fst) : m.lookup k = none := by
  induction m with
  | nil => rfl
  | cons p t ih =>
    rw [lookup_cons]
    simp only [List.map_cons, List.mem_cons, not_or] at h
    rw [if_neg h.1, ih h.2]

theorem cellAt_overwriteRow (cols : List String) (payload : List (String × Cell)) :
    ∀ (r : List Cell), (payload.map Prod.fst).Nodup → cols.length ≤ r.length →
    ∀ c : String,
      (payload.lookup c = none →
        cellAt cols (overwriteRow cols r payload) c = cellAt cols r c) ∧
      (∀ v, payload.lookup c = some v → c ∈ cols →
        cellAt cols (overwriteRow cols r payload) c = v) ∧
      (∀ v, payload.lookup c = some v → c ∉ cols →
        cellAt cols (overwriteRow cols r payload) c = cellAt cols r c) := by
  induction payload with
  | nil =>
    intro r _ _ c
    refine ⟨fun _ => rfl, fun v hv _ => ?_, fun v hv _ => ?_⟩
    · rw [lookup_nil] at hv; cases hv
    · rw [lookup_nil] at hv; cases hv
  | cons p rest ih =>
    intro r hnd hlen c
    obtain ⟨k, v⟩ := p
    simp only [List.map_cons, List.nodup_cons] at hnd
    have hstep : overwriteRow cols r ((k, v) :: rest) =
        overwriteRow cols (match colIdx cols k with
          | some i => r.set i v
          | none => r) rest := by
      unfold overwriteRow
      rw [List.foldl_cons]
    have hlen' : cols.length ≤ (match colIdx cols k with
        | some i => r.set i v
        | none => r).length := by
      cases colIdx cols k <;> simpa using hlen
    have ih' := ih (match colIdx cols k with
        | some i => r.set i v
        | none => r) hnd.2 hlen' c
    by_cases hck : c = k
    · subst hck
      have hrest : rest.lookup c = none :=
        lookup_eq_none_of_not_mem_keys rest c hnd.1
      have hcons : ((c, v) :: rest).lookup c = some v := by
        rw [lookup_cons, if_pos rfl]
      refine ⟨fun hn => ?_, fun v' hv' hcin => ?_, fun v' hv' hcout => ?_⟩
      · rw [hcons] at hn; cases hn
      · rw [hcons] at hv'
        have hvv : v' = v := by
          cases hv'; rfl
        rw [hvv]
        obtain ⟨i, hio⟩ : ∃ i, colIdx cols c = some i := by
          have := (colIdx_isSome_iff_mem cols c).2 hcin
          cases hx : colIdx cols c with
          | none => rw [hx] at this; cases this
          | some i => exact ⟨i, rfl⟩
        rw [hstep]
        have hr' : (match colIdx cols c with
            | some i => r.set i v
            | none => r) = r.set i v := by rw [hio]
        rw [hr'] at ih' ⊢
        rw [ih'.1 hrest, cellAt_eq_of_colIdx cols _ c i hio,
          get?_set_self_of_lt r i v
            (lt_of_lt_of_le (colIdx_lt_length cols c i hio) hlen)]
        rfl
      · rw [hcons] at hv'
        have hio : colIdx cols c = none := (colIdx_eq_none_iff cols c).2 hcout
        rw [hstep]
        have hr' : (match colIdx cols c with
            | some i => r.set i v
            | none => r) = r := by rw [hio]
        rw [hr'] at ih' ⊢
        exact ih'.1 hrest
    · have hsame : cellAt cols (match colIdx cols k with
          | some i => r.set i v
          | none => r) c = cellAt cols r c := by
        cases hik : colIdx cols k with
        | none => rfl
        | some i =>
          cases hic : colIdx cols c with
          | none =>
            rw [cellAt_eq_null_of_colIdx_none cols _ c hic,
              cellAt_eq_null_of_colIdx_none cols r c hic]
          | some j =>
            have hij : i ≠ j := by
              intro hij
              subst hij
              have h₁ := colIdx_get cols k i hik
              have h₂ := colIdx_get cols c i hic
              rw [h₁] at h₂
              exact hck (Option.some.injEq _ _ ▸ h₂).symm
            rw [cellAt_eq_of_colIdx cols _ c j hic,
              cellAt_eq_of_colIdx cols r c j hic,
              List.get?_set_ne _ _ hij]
      have hcons : ((k, v) :: rest).lookup c = rest.lookup c := by
        rw [lookup_cons, if_neg hck]
      refine ⟨fun hn => ?_, fun v' hv' hcin => ?_, fun v' hv' hcout => ?_⟩
      · rw [hcons] at hn
        rw [hstep, ih'.1 hn, hsame]
      · rw [hcons] at hv'
        rw [hstep, ih'.2.1 v' hv' hcin]
      · rw [hcons] at hv'
        rw [hstep, ih'.2.2 v' hv' hcout, hsame]

theorem lookup_map_self (f : String → Cell) :
    ∀ (xs : List String) (c : String),
      (xs.map (fun x => (x, f x))).lookup c =
        if xs.contains c then some (f c) else none := by
  intro xs
  induction xs with
  | nil => intro c; rfl
  | cons x rest ih =>
    intro c
    simp only [List.map_cons]
    rw [lookup_cons]
    by_cases hc : c = x
    · subst hc
      rw [if_pos rfl, if_pos (List.elem_eq_true_of_mem (List.mem_cons_self _ _))]
    · rw [if_neg hc, ih c]
      by_cases hm : rest.contains c
      · rw [if_pos hm, if_pos]
        exact List.elem_eq_true_of_mem
          (List.mem_cons_of_mem _ (List.mem_of_elem_eq_true hm))
      · rw [if_neg hm, if_neg]
        intro hcm
        rcases List.mem_cons.1 (List.mem_of_elem_eq_true hcm) with h | h
        · exact hc h
        · exact hm (List.elem_eq_true_of_mem h)

/-! ## Applying detector output (C2): phase lemmas -/

theorem apply_deletes (pkc : String) (src : Source) (ks : List String) :
    ∀ s : Snapshot,
      (applyChangesSpec pkc s
        (ks.map (fun k => (⟨.DELETE, k, src, []⟩ : Change)))).rows =
      s.rows.filter (fun r => !(ks.contains (rowPk s.cols pkc r))) := by
  induction ks with
  | nil =>
    intro s
    exact (List.filter_eq_self.2 (fun a _ => rfl)).symm
  | cons k ks ih =>
    intro s
    simp only [List.map_cons]
    unfold applyChangesSpec
    rw [List.foldl_cons]
    have hstep : applyChangeSpec pkc s ⟨.DELETE, k, src, []⟩ =
        { s with rows := s.rows.filter (fun r => rowPk s.cols pkc r ≠ k) } := rfl
    rw [hstep]
    have := ih { s with rows := s.rows.filter (fun r => rowPk s.cols pkc r ≠ k) }
    unfold applyChangesSpec at this
    rw [this]
    simp only
    rw [List.filter_filter]
    apply List.filter_congr
    intro r _
    by_cases h₁ : rowPk s.cols pkc r = k
    · have hb : (rowPk s.cols pkc r == k) = true := by simp [h₁]
      have hcont : (k :: ks).contains (rowPk s.cols pkc r) = true := by
        apply List.elem_eq_true_of_mem
        rw [h₁]
        exact List.mem_cons_self _ _
      simp [h₁, hcont]
    · have hcont : (k :: ks).contains (rowPk s.cols pkc r) =
          ks.contains (rowPk s.cols pkc r) := by
        rw [List.contains_cons]
        have hb : (rowPk s.cols pkc r == k) = false := by simp [h₁]
        rw [hb, Bool.false_or]
      simp [h₁, hcont]

theorem apply_inserts (pkc : String) (chs : List Change)
    (hins : ∀ ch ∈ chs, ch.operation = .INSERT) :
    ∀ s : Snapshot,
      (applyChangesSpec pkc s chs).rows =
        s.rows ++ chs.map (fun ch => payloadToRow s.cols ch.data) := by
  induction chs with
  | nil => intro s; simp [applyChangesSpec]
  | cons ch rest ih =>
    intro s
    unfold applyChangesSpec
    rw [List.foldl_cons]
    have hop : ch.operation = .INSERT := hins ch (List.mem_cons_self _ _)
    have hstep : applyChangeSpec pkc s ch =
        { s with rows := s.rows ++ [payloadToRow s.cols ch.data] } := by
      unfold applyChangeSpec
      rw [hop]
    rw [hstep]
    have := ih (fun ch' h' => hins ch' (List.mem_cons_of_mem _ h'))
      { s with rows := s.rows ++ [payloadToRow s.cols ch.data] }
    unfold applyChangesSpec at this
    rw [this]
    simp only [List.map_cons, List.append_assoc, List.singleton_append]

/-- The row transformer a list of UPDATE changes applies to each row. -/
def updFun (cols : List String) (pkc : String) (ups : List Change)
    (r : List Cell) : List Cell :=
  ups.foldl
    (fun r ch => if rowPk cols pkc r == ch.primary_key_value
                 then overwriteRow cols r ch.data else r) r

theorem apply_updates (pkc : String) (ups : List Change)
    (hup : ∀ ch ∈ ups, ch.operation = .UPDATE) :
    ∀ s : Snapshot,
      (applyChangesSpec pkc s ups).rows = s.rows.map (updFun s.cols pkc ups) := by
  induction ups with
  | nil =>
    intro s
    have : updFun s.cols pkc [] = id := by
      funext r
      rfl
    rw [this, List.map_id]
    rfl
  | cons ch rest ih =>
    intro s
    unfold applyChangesSpec
    rw [List.foldl_cons]
    have hop : ch.operation = .UPDATE := hup ch (List.mem_cons_self _ _)
    have hstep : applyChangeSpec pkc s ch =
        { s with rows := s.rows.map (fun r =>
            if rowPk s.cols pkc r == ch.primary_key_value
            then overwriteRow s.cols r ch.data else r) } := by
      unfold applyChangeSpec
      rw [hop]
    rw [hstep]
    have := ih (fun ch' h' => hup ch' (List.mem_cons_of_mem _ h'))
      { s with rows := s.rows.map (fun r =>
          if rowPk s.cols pkc r == ch.primary_key_value
          then overwriteRow s.cols r ch.data else r) }
    unfold applyChangesSpec at this
    rw [this]
    simp only [List.map_map]
    apply List.map_congr_left
    intro r _
    rfl

theorem find?_pk_cons (cols : List String) (pkc q : String) (r : List Cell)
    (rest : List (List Cell)) :
    (r :: rest).find? (fun r => rowPk cols pkc r == q) =
      if rowPk cols pkc r == q then some r
      else rest.find? (fun r => rowPk cols pkc r == q) := by
  by_cases h : (rowPk cols pkc r == q) = true
  · rw [if_pos h]
    exact List.find?_cons_of_pos _ h
  · rw [if_neg h]
    exact List.find?_cons_of_neg _ h

theorem find?_rowPk_filter (cols : List String) (pkc q : String)
    (p : List Cell → Bool) (rows : List (List Cell))
    (hpq : ∀ r, (rowPk cols pkc r == q) = true → p r = true) :
    (rows.filter p).find? (fun r => rowPk cols pkc r == q) =
      rows.find? (fun r => rowPk cols pkc r == q) := by
  induction rows with
  | nil => rfl
  | cons r rest ih =>
    by_cases hq : (rowPk cols pkc r == q) = true
    · rw [List.filter_cons_of_pos (hpq r hq), find?_pk_cons, find?_pk_cons,
        if_pos hq, if_pos hq]
    · by_cases hp : p r = true
      · rw [List.filter_cons_of_pos hp, find?_pk_cons, find?_pk_cons,
          if_neg hq, if_neg hq, ih]
      · rw [List.filter_cons_of_neg (by simp [hp]), find?_pk_cons,
          if_neg hq, ih]

theorem find?_map_pkPreserving (cols : List String) (pkc q : String)
    (g : List Cell → List Cell) (rows : List (List Cell))
    (hg : ∀ r ∈ rows, rowPk cols pkc (g r) = rowPk cols pkc r) :
    (rows.map g).find? (fun r => rowPk cols pkc r == q) =
      (rows.find? (fun r => rowPk cols pkc r == q)).map g := by
  induction rows with
  | nil => rfl
  | cons r rest ih =>
    rw [List.map_cons, find?_pk_cons, find?_pk_cons]
    by_cases hq : (rowPk cols pkc r == q) = true
    · have hgq : (rowPk cols pkc (g r) == q) = true := by
        rw [hg r (List.mem_cons_self _ _)]
        exact hq
      rw [if_pos hgq, if_pos hq]
      rfl
    · have hgq : ¬((rowPk cols pkc (g r) == q) = true) := by
        rw [hg r (List.mem_cons_self _ _)]
        exact hq
      rw [if_neg hgq, if_neg hq,
        ih (fun r' h' => hg r' (List.mem_cons_of_mem _ h'))]

/-- An UPDATE change keeps the primary key of every row it overwrites. -/
def PkPreserving (cols : List String) (pkc : String) (ch : Change) : Prop :=
  ∀ r : List Cell, cols.length ≤ r.length →
    rowPk cols pkc r = ch.primary_key_value →
    rowPk cols pkc (overwriteRow cols r ch.data) = ch.primary_key_value

theorem updFun_skip (cols : List String) (pkc : String) (ups : List Change) :
    ∀ r : List Cell, (∀ ch ∈ ups, ch.primary_key_value ≠ rowPk cols pkc r) →
      updFun cols pkc ups r = r := by
  induction ups with
  | nil => intro r _; rfl
  | cons ch rest ih =>
    intro r h
    unfold updFun
    rw [List.foldl_cons, if_neg (by
      simp only [beq_iff_eq]
      exact fun hc => h ch (List.mem_cons_self _ _) hc.symm)]
    exact ih r (fun ch' h' => h ch' (List.mem_cons_of_mem _ h'))

theorem updFun_preserves (cols : List String) (pkc : String) (ups : List Change)
    (hpres : ∀ ch ∈ ups, PkPreserving cols pkc ch) :
    ∀ r : List Cell, cols.length ≤ r.length →
      rowPk cols pkc (updFun cols pkc ups r) = rowPk cols pkc r ∧
      cols.length ≤ (updFun cols pkc ups r).length := by
  induction ups with
  | nil => intro r hlen; exact ⟨rfl, hlen⟩
  | cons ch rest ih =>
    intro r hlen
    have hrest := ih (fun ch' h' => hpres ch' (List.mem_cons_of_mem _ h'))
    unfold updFun
    rw [List.foldl_cons]
    by_cases hq : (rowPk cols pkc r == ch.primary_key_value) = true
    · rw [if_pos hq]
      have heq : rowPk cols pkc r = ch.primary_key_value := by
        simpa using hq
      have hlen' : cols.length ≤ (overwriteRow cols r ch.data).length := by
        rw [overwriteRow_length]
        exact hlen
      have hpk' : rowPk cols pkc (overwriteRow cols r ch.data) =
          ch.primary_key_value :=
        hpres ch (List.mem_cons_self _ _) r hlen heq
      have := hrest (overwriteRow cols r ch.data) hlen'
      unfold updFun at this
      refine ⟨?_, this.2⟩
      rw [this.1, hpk', heq]
    · rw [if_neg (by simpa using hq)]
      exact hrest r hlen

theorem updFun_target (cols : List String) (pkc : String) (ups : List Change)
    (hpres : ∀ ch ∈ ups, PkPreserving cols pkc ch)
    (hnd : (ups.map (fun ch => ch.primary_key_value)).Nodup)
    (q : String) (chq : Change) (hmem : chq ∈ ups)
    (hq : chq.primary_key_value = q) :
    ∀ r : List Cell, cols.length ≤ r.length → rowPk cols pkc r = q →
      updFun cols pkc ups r = overwriteRow cols r chq.data := by
  induction ups with
  | nil => intro r _ _; simp at hmem
  | cons ch rest ih =>
    intro r hlen hr
    simp only [List.map_cons, List.nodup_cons] at hnd
    unfold updFun
    rw [List.foldl_cons]
    rcases List.mem_cons.1 hmem with he | hm
    · subst he
      rw [if_pos (by simp [hr, hq])]
      have hpk' : rowPk cols pkc (overwriteRow cols r chq.data) = q := by
        rw [hpres chq (List.mem_cons_self _ _) r hlen (by rw [hr, hq])]
        exact hq
      have hskip : ∀ ch' ∈ rest, ch'.primary_key_value ≠
          rowPk cols pkc (overwriteRow cols r chq.data) := by
        intro ch' h' hc
        rw [hpk'] at hc
        apply hnd.1
        rw [hq, ← hc]
        exact List.mem_map.2 ⟨ch', h', rfl⟩
      have := updFun_skip cols pkc rest (overwriteRow cols r chq.data) hskip
      unfold updFun at this
      exact this
    · have hne : ch.primary_key_value ≠ q := by
        intro hc
        apply hnd.1
        rw [hc, ← hq]
        exact List.mem_map.2 ⟨chq, hm, rfl⟩
      rw [if_neg (by
        simp only [beq_iff_eq]
        intro hc
        exact hne (by rw [← hc, hr]))]
      have := ih (fun ch' h' => hpres ch' (List.mem_cons_of_mem _ h')) hnd.2 hm
      unfold updFun at this
      exact this r hlen hr

/-! ## Applying detector output (C2): snapshot key lemmas -/

theorem applyChangesSpec_append (pkc : String) (s : Snapshot) (l₁ l₂ : List Change) :
    applyChangesSpec pkc s (l₁ ++ l₂) =
      applyChangesSpec pkc (applyChangesSpec pkc s l₁) l₂ := by
  unfold applyChangesSpec
  rw [List.foldl_append]

theorem snapPks_nodup (pkc : String) (s : Snapshot) : (snapPks pkc s).Nodup := by
  unfold snapPks
  by_cases h : s.isEmpty = true
  · rw [if_pos h]
    exact List.nodup_nil
  · rw [if_neg h]
    exact nodup_dedupKeys _

theorem mem_snapPks (pkc : String) (s : Snapshot) (q : String)
    (hc : s.cols ≠ []) :
    q ∈ snapPks pkc s ↔ ∃ r ∈ s.rows, rowPk s.cols pkc r = q := by
  unfold snapPks
  have hce : s.cols.isEmpty = false := List.isEmpty_eq_false.2 hc
  cases hre : s.rows with
  | nil =>
    have he : s.isEmpty = true := by
      unfold Snapshot.isEmpty
      rw [hre]
      rfl
    rw [if_pos he]
    simp [hre]
  | cons r rs =>
    have he : s.isEmpty = false := by
      unfold Snapshot.isEmpty
      rw [hre, hce]
      rfl
    rw [if_neg (by simp [he]), mem_dedupKeys, List.mem_map]

theorem firstRowFor_spec (pkc : String) (s : Snapshot) (q : String)
    (h : q ∈ snapPks pkc s) :
    s.rows.find? (fun r => rowPk s.cols pkc r == q) = some (firstRowFor pkc s q) ∧
    rowPk s.cols pkc (firstRowFor pkc s q) = q ∧
    firstRowFor pkc s q ∈ s.rows := by
  have hex : ∃ r ∈ s.rows, (rowPk s.cols pkc r == q) = true := by
    unfold snapPks at h
    by_cases he : s.isEmpty = true
    · rw [if_pos he] at h
      simp at h
    · rw [if_neg he, mem_dedupKeys, List.mem_map] at h
      obtain ⟨r, hr, hpk⟩ := h
      exact ⟨r, hr, by simp [hpk]⟩
  have hsome : (s.rows.find? (fun r => rowPk s.cols pkc r == q)).isSome = true :=
    List.find?_isSome.2 hex
  cases hf : s.rows.find? (fun r => rowPk s.cols pkc r == q) with
  | none => rw [hf] at hsome; cases hsome
  | some r₀ =>
    have hfr : firstRowFor pkc s q = r₀ := by
      unfold firstRowFor
      rw [hf]
      rfl
    rw [hfr]
    exact ⟨rfl, by simpa using List.find?_some hf, List.mem_of_find?_eq_some hf⟩

theorem find?_pk_eq_none (pkc : String) (s : Snapshot) (q : String)
    (hc : s.cols ≠ []) (h : q ∉ snapPks pkc s) :
    s.rows.find? (fun r => rowPk s.cols pkc r == q) = none := by
  rw [List.find?_eq_none]
  intro r hr hb
  exact h ((mem_snapPks pkc s q hc).2 ⟨r, hr, by simpa using hb⟩)

theorem find?_beq_cons (q k : String) (ks : List String) :
    (k :: ks).find? (fun x => x == q) =
      if k == q then some k else ks.find? (fun x => x == q) := by
  by_cases h : (k == q) = true
  · rw [if_pos h]
    exact List.find?_cons_of_pos _ h
  · rw [if_neg h]
    exact List.find?_cons_of_neg _ h

theorem find?_beq_self (q : String) :
    ∀ ks : List String, q ∈ ks → ks.find? (fun x => x == q) = some q := by
  intro ks
  induction ks with
  | nil => intro h; simp at h
  | cons k ks ih =>
    intro h
    rw [find?_beq_cons]
    by_cases hk : (k == q) = true
    · rw [if_pos hk]
      have hkq : k = q := by simpa using hk
      rw [hkq]
    · rw [if_neg hk]
      rcases List.mem_cons.1 h with he | hm
      · exact absurd (by simp [he]) hk
      · exact ih hm

theorem find?_map_key (cols : List String) (pkc q : String)
    (g : String → List Cell) :
    ∀ ks : List String, (∀ k ∈ ks, rowPk cols pkc (g k) = k) →
      (ks.map g).find? (fun r => rowPk cols pkc r == q) =
        (ks.find? (fun x => x == q)).map g := by
  intro ks
  induction ks with
  | nil => intro _; rfl
  | cons k ks ih =>
    intro hg
    rw [List.map_cons, find?_pk_cons, find?_beq_cons,
      hg k (List.mem_cons_self _ _)]
    by_cases hk : (k == q) = true
    · rw [if_pos hk, if_pos hk]
      rfl
    · rw [if_neg hk, if_neg hk,
        ih (fun k' h' => hg k' (List.mem_cons_of_mem _ h'))]

theorem map_fst_pairs (f : String → Cell) (l : List String) :
    ((l.map (fun c => (c, f c))).map Prod.fst) = l := by
  induction l with
  | nil => rfl
  | cons c cs ih =>
    simp only [List.map_cons]
    rw [ih]

theorem colDiff_false_iff (oldCols newCols : List String)
    (oldRow newRow : List Cell) (c : String) :
    colDiff oldCols newCols oldRow newRow c = false ↔
      cmpStr (cellAt oldCols oldRow c) = cmpStr (cellAt newCols newRow c) := by
  unfold colDiff
  simp [bne]

theorem updatesFor_pks_sublist (pkc : String) (old new : Snapshot) (src : Source) :
    ∀ (pks : List String) (ups : List Change),
      updatesFor pkc old new src pks = .ok ups →
      (ups.map (fun ch => ch.primary_key_value)).Sublist pks := by
  intro pks
  induction pks with
  | nil =>
    intro ups h
    simp only [updatesFor, Except.ok.injEq] at h
    subst h
    simp
  | cons pk rest ih =>
    intro ups h
    unfold updatesFor at h
    cases hd : deltaCols old.cols new.cols (firstRowFor pkc old pk)
        (firstRowFor pkc new pk) new.cols with
    | error e => rw [hd] at h; cases h
    | ok delta =>
      rw [hd] at h
      cases hu : updatesFor pkc old new src rest with
      | error e => rw [hu] at h; cases h
      | ok more =>
        rw [hu] at h
        simp only [Except.ok.injEq] at h
        subst h
        by_cases hde : delta.isEmpty = true
        · rw [if_pos hde]
          exact (ih more hu).trans (List.sublist_cons_self _ _)
        · rw [if_neg hde, List.map_cons]
          exact List.Sublist.cons₂ _ (ih more hu)

theorem updatesFor_at (pkc : String) (old new : Snapshot) (src : Source) :
    ∀ (pks : List String) (ups : List Change), pks.Nodup →
      updatesFor pkc old new src pks = .ok ups →
      ∀ q ∈ pks, ∃ delta,
        deltaCols old.cols new.cols (firstRowFor pkc old q)
          (firstRowFor pkc new q) new.cols = .ok delta ∧
        (delta.isEmpty = true → ∀ ch ∈ ups, ch.primary_key_value ≠ q) ∧
        (delta.isEmpty = false → (⟨.UPDATE, q, src, delta⟩ : Change) ∈ ups) := by
  intro pks
  induction pks with
  | nil => intro ups _ _ q hq; simp at hq
  | cons pk rest ih =>
    intro ups hnd h q hq
    rw [List.nodup_cons] at hnd
    unfold updatesFor at h
    cases hd : deltaCols old.cols new.cols (firstRowFor pkc old pk)
        (firstRowFor pkc new pk) new.cols with
    | error e => rw [hd] at h; cases h
    | ok delta =>
      rw [hd] at h
      cases hu : updatesFor pkc old new src rest with
      | error e => rw [hu] at h; cases h
      | ok more =>
        rw [hu] at h
        simp only [Except.ok.injEq] at h
        subst h
        have hmore_pks := updatesFor_pks_sublist pkc old new src rest more hu
        rcases List.mem_cons.1 hq with he | hm
        · subst he
          refine ⟨delta, hd, ?_, ?_⟩
          · intro hde ch hch
            rw [if_pos hde] at hch
            intro hcq
            apply hnd.1
            rw [← hcq]
            exact hmore_pks.subset (List.mem_map.2 ⟨ch, hch, rfl⟩)
          · intro hde
            rw [if_neg (by simp [hde])]
            exact List.mem_cons_self _ _
        · obtain ⟨delta', hd', hempty, hmem⟩ := ih more hnd.2 hu q hm
          refine ⟨delta', hd', ?_, ?_⟩
          · intro hde ch hch
            by_cases hdel : delta.isEmpty = true
            · rw [if_pos hdel] at hch
              exact hempty hde ch hch
            · rw [if_neg hdel] at hch
              rcases List.mem_cons.1 hch with he' | hm'
              · intro hcq
                rw [he'] at hcq
                have hpkq : pk = q := hcq
                apply hnd.1
                rw [hpkq]
                exact hm
              · exact hempty hde ch hm'
          · intro hde
            by_cases hdel : delta.isEmpty = true
            · rw [if_pos hdel]
              exact hmem hde
            · rw [if_neg hdel]
              exact List.mem_cons_of_mem _ (hmem hde)

theorem ups_delta_char (pkc : String) (old new : Snapshot) (src : Source)
    (ups : List Change)
    (hok : updatesFor pkc old new src (commonPks pkc old new) = .ok ups) :
    ∀ ch ∈ ups, ∃ pk,
      pk ∈ snapPks pkc old ∧ pk ∈ snapPks pkc new ∧
      ch = ⟨.UPDATE, pk, src,
        ((new.cols.filter (colDiff old.cols new.cols (firstRowFor pkc old pk)
          (firstRowFor pkc new pk))).map
          (fun c => (c, cellAt new.cols (firstRowFor pkc new pk) c)))⟩ := by
  intro ch hch
  obtain ⟨pk, delta, hpks, hche, hne, hdc⟩ :=
    updatesFor_mem_char pkc old new src (commonPks pkc old new) ups hok ch hch
  obtain ⟨hdelta, _⟩ := deltaCols_ok_char old.cols new.cols _ _ new.cols delta hdc
  unfold commonPks at hpks
  rw [List.mem_filter] at hpks
  exact ⟨pk, hpks.1, List.mem_of_elem_eq_true hpks.2, by rw [hche, hdelta]⟩

theorem ups_pkPreserving (pkc : String) (old new : Snapshot) (src : Source)
    (ups : List Change) (hnd : new.cols.Nodup) (hpkc : pkc ∈ new.cols)
    (hok : updatesFor pkc old new src (commonPks pkc old new) = .ok ups) :
    ∀ ch ∈ ups, PkPreserving new.cols pkc ch := by
  intro ch hch
  obtain ⟨pk, hpo, hpn, hche⟩ := ups_delta_char pkc old new src ups hok ch hch
  obtain ⟨hfind, hpkrow, hrowmem⟩ := firstRowFor_spec pkc new pk hpn
  have hdata : ch.data =
      (new.cols.filter (colDiff old.cols new.cols (firstRowFor pkc old pk)
        (firstRowFor pkc new pk))).map
        (fun c => (c, cellAt new.cols (firstRowFor pkc new pk) c)) := by
    rw [hche]
  have hpkch : ch.primary_key_value = pk := by rw [hche]
  intro r hlen hr
  rw [hdata, hpkch]
  rw [hpkch] at hr
  have hkeys : (((new.cols.filter (colDiff old.cols new.cols
      (firstRowFor pkc old pk) (firstRowFor pkc new pk))).map
      (fun c => (c, cellAt new.cols (firstRowFor pkc new pk) c))).map
      Prod.fst).Nodup := by
    rw [map_fst_pairs]
    exact List.Nodup.filter _ hnd
  have hover := cellAt_overwriteRow new.cols _ r hkeys hlen pkc
  have hlk := lookup_map_self (fun c => cellAt new.cols (firstRowFor pkc new pk) c)
    (new.cols.filter (colDiff old.cols new.cols (firstRowFor pkc old pk)
      (firstRowFor pkc new pk))) pkc
  by_cases hcont : (new.cols.filter (colDiff old.cols new.cols
      (firstRowFor pkc old pk) (firstRowFor pkc new pk))).contains pkc = true
  · rw [if_pos hcont] at hlk
    have hco := hover.2.1 _ hlk hpkc
    unfold rowPk
    rw [hco]
    exact hpkrow
  · rw [if_neg hcont] at hlk
    have hco := hover.1 hlk
    unfold rowPk
    rw [hco]
    exact hr

theorem insRow_pk (pkc : String) (new : Snapshot) (k : String)
    (hk : k ∈ snapPks pkc new) :
    rowPk new.cols pkc
      (payloadToRow new.cols (rowToDict new.cols (firstRowFor pkc new k))) = k := by
  unfold rowPk rowToDict
  rw [cellAt_payloadToRow_zip]
  exact (firstRowFor_spec pkc new k hk).2.1

theorem pkView_detect_eq (pkc : String) (old new : Snapshot) (src : Source)
    (ups : List Change)
    (hcols : old.cols = new.cols) (hnd : new.cols.Nodup) (hpkc : pkc ∈ new.cols)
    (hwfo : old.WF)
    (hu : updatesFor pkc old new src (commonPks pkc old new) = .ok ups)
    (q : String) :
    (((old.rows.filter (fun r =>
        !(((snapPks pkc old).filter (fun k => !((snapPks pkc new).contains k))).contains
          (rowPk new.cols pkc r))) ++
      ((snapPks pkc new).filter (fun k => !((snapPks pkc old).contains k))).map
        (fun k => payloadToRow new.cols (rowToDict new.cols (firstRowFor pkc new k)))).map
      (updFun new.cols pkc ups)).find? (fun r => rowPk new.cols pkc r == q)).map
      (rowView new.cols) =
    (new.rows.find? (fun r => rowPk new.cols pkc r == q)).map (rowView new.cols) := by
  have hcne : new.cols ≠ [] := by
    intro h
    rw [h] at hpkc
    exact absurd hpkc (List.not_mem_nil _)
  have hocne : old.cols ≠ [] := by
    rw [hcols]
    exact hcne
  have hcommonNodup : (commonPks pkc old new).Nodup :=
    List.Nodup.filter _ (snapPks_nodup pkc old)
  have hpres : ∀ ch ∈ ups, PkPreserving new.cols pkc ch :=
    ups_pkPreserving pkc old new src ups hnd hpkc hu
  have hupsnd : (ups.map (fun ch => ch.primary_key_value)).Nodup :=
    List.Nodup.sublist (updatesFor_pks_sublist pkc old new src _ ups hu) hcommonNodup
  have hlenrows : ∀ r ∈ (old.rows.filter (fun r =>
      !(((snapPks pkc old).filter (fun k => !((snapPks pkc new).contains k))).contains
        (rowPk new.cols pkc r))) ++
      ((snapPks pkc new).filter (fun k => !((snapPks pkc old).contains k))).map
        (fun k => payloadToRow new.cols (rowToDict new.cols (firstRowFor pkc new k)))),
      new.cols.length ≤ r.length := by
    intro r hr
    rcases List.mem_append.1 hr with h | h
    · have hlen := hwfo r (List.mem_filter.1 h).1
      rw [hcols] at hlen
      exact le_of_eq hlen.symm
    · obtain ⟨k, hk, hkr⟩ := List.mem_map.1 h
      rw [← hkr]
      have hplen : (payloadToRow new.cols
          (rowToDict new.cols (firstRowFor pkc new k))).length = new.cols.length := by
        unfold payloadToRow
        exact List.length_map _ _
      exact le_of_eq hplen.symm
  have hgpk : ∀ r ∈ (old.rows.filter (fun r =>
      !(((snapPks pkc old).filter (fun k => !((snapPks pkc new).contains k))).contains
        (rowPk new.cols pkc r))) ++
      ((snapPks pkc new).filter (fun k => !((snapPks pkc old).contains k))).map
        (fun k => payloadToRow new.cols (rowToDict new.cols (firstRowFor pkc new k)))),
      rowPk new.cols pkc (updFun new.cols pkc ups r) = rowPk new.cols pkc r :=
    fun r hr => (updFun_preserves new.cols pkc ups hpres r (hlenrows r hr)).1
  rw [find?_map_pkPreserving new.cols pkc q (updFun new.cols pkc ups) _ hgpk,
    List.find?_append]
  by_cases hqn : q ∈ snapPks pkc new
  · obtain ⟨hfnew, hpknew, hmemnew⟩ := firstRowFor_spec pkc new q hqn
    rw [hfnew]
    by_cases hqo : q ∈ snapPks pkc old
    · -- common key: the old row survives deletion and is updated into the new view
      have hqc : q ∈ commonPks pkc old new := by
        unfold commonPks
        exact List.mem_filter.2 ⟨hqo, List.elem_eq_true_of_mem hqn⟩
      obtain ⟨hfold, hpkold, hmemold⟩ := firstRowFor_spec pkc old q hqo
      rw [hcols] at hfold hpkold
      have hfp : ∀ r, (rowPk new.cols pkc r == q) = true →
          (!(((snapPks pkc old).filter (fun k => !((snapPks pkc new).contains k))).contains
            (rowPk new.cols pkc r))) = true := by
        intro r hb
        have hq' : rowPk new.cols pkc r = q := by simpa using hb
        rw [hq']
        have hcf : ((snapPks pkc old).filter
            (fun k => !((snapPks pkc new).contains k))).contains q = false := by
          rw [contains_eq_false_iff]
          intro hmem
          have h2 := (List.mem_filter.1 hmem).2
          have h3 : (snapPks pkc new).contains q = true :=
            List.elem_eq_true_of_mem hqn
          rw [h3] at h2
          cases h2
        rw [hcf]
        rfl
      have hfilt := find?_rowPk_filter new.cols pkc q _ old.rows hfp
      rw [hfilt, hfold, Option.or_some]
      obtain ⟨delta, hdc, hdEmpty, hdNonempty⟩ :=
        updatesFor_at pkc old new src (commonPks pkc old new) ups hcommonNodup hu q hqc
      obtain ⟨hdelta, _⟩ := deltaCols_ok_char old.cols new.cols _ _ new.cols delta hdc
      show some (rowView new.cols (updFun new.cols pkc ups (firstRowFor pkc old q))) =
        some (rowView new.cols (firstRowFor pkc new q))
      cases hde : delta.isEmpty with
      | true =>
        have hskip : ∀ ch ∈ ups, ch.primary_key_value ≠
            rowPk new.cols pkc (firstRowFor pkc old q) := by
          intro ch hch
          rw [hpkold]
          exact hdEmpty hde ch hch
        rw [updFun_skip new.cols pkc ups _ hskip]
        refine congrArg some ?_
        have hnil : new.cols.filter (colDiff old.cols new.cols (firstRowFor pkc old q)
            (firstRowFor pkc new q)) = [] := by
          have hdnil : delta = [] := List.isEmpty_iff.1 hde
          rw [hdnil] at hdelta
          exact List.map_eq_nil.1 hdelta.symm
        unfold rowView
        apply List.map_congr_left
        intro c hc
        have hcd : colDiff old.cols new.cols (firstRowFor pkc old q)
            (firstRowFor pkc new q) c = false := by
          have hnc := List.filter_eq_nil_iff.1 hnil c hc
          cases hx : colDiff old.cols new.cols (firstRowFor pkc old q)
              (firstRowFor pkc new q) c
          · rfl
          · exact absurd hx hnc
        have heq := (colDiff_false_iff _ _ _ _ c).1 hcd
        rw [← heq, hcols]
      | false =>
        have hchq : (⟨.UPDATE, q, src, delta⟩ : Change) ∈ ups := hdNonempty hde
        have hlenold : new.cols.length ≤ (firstRowFor pkc old q).length := by
          have hl := hwfo _ hmemold
          rw [hcols] at hl
          exact le_of_eq hl.symm
        have htarget := updFun_target new.cols pkc ups hpres hupsnd q
          (⟨.UPDATE, q, src, delta⟩ : Change) hchq rfl
          (firstRowFor pkc old q) hlenold hpkold
        have hdata : (⟨.UPDATE, q, src, delta⟩ : Change).data = delta := rfl
        rw [hdata] at htarget
        rw [htarget]
        refine congrArg some ?_
        subst hdelta
        unfold rowView
        apply List.map_congr_left
        intro c hc
        have hkeys : (((new.cols.filter (colDiff old.cols new.cols
            (firstRowFor pkc old q) (firstRowFor pkc new q))).map
            (fun c => (c, cellAt new.cols (firstRowFor pkc new q) c))).map
            Prod.fst).Nodup := by
          rw [map_fst_pairs]
          exact List.Nodup.filter _ hnd
        have hover := cellAt_overwriteRow new.cols _ (firstRowFor pkc old q)
          hkeys hlenold c
        have hlk := lookup_map_self
          (fun c => cellAt new.cols (firstRowFor pkc new q) c)
          (new.cols.filter (colDiff old.cols new.cols (firstRowFor pkc old q)
            (firstRowFor pkc new q))) c
        by_cases hcf : (new.cols.filter (colDiff old.cols new.cols
            (firstRowFor pkc old q) (firstRowFor pkc new q))).contains c = true
        · rw [if_pos hcf] at hlk
          rw [hover.2.1 _ hlk hc]
        · rw [if_neg hcf] at hlk
          rw [hover.1 hlk]
          have hcd : colDiff old.cols new.cols (firstRowFor pkc old q)
              (firstRowFor pkc new q) c = false := by
            cases hx : colDiff old.cols new.cols (firstRowFor pkc old q)
                (firstRowFor pkc new q) c
            · rfl
            · exact absurd (List.elem_eq_true_of_mem
                (List.mem_filter.2 ⟨hc, hx⟩)) hcf
          have heq := (colDiff_false_iff _ _ _ _ c).1 hcd
          rw [← heq, hcols]
    · -- inserted key: only the appended payload row carries it
      have hqi : q ∈ (snapPks pkc new).filter
          (fun k => !((snapPks pkc old).contains k)) := by
        refine List.mem_filter.2 ⟨hqn, ?_⟩
        show (!((snapPks pkc old).contains q)) = true
        rw [(contains_eq_false_iff _ _).2 hqo]
        rfl
      have hfiltnone : (old.rows.filter (fun r =>
          !(((snapPks pkc old).filter (fun k => !((snapPks pkc new).contains k))).contains
            (rowPk new.cols pkc r)))).find?
          (fun r => rowPk new.cols pkc r == q) = none := by
        rw [List.find?_eq_none]
        intro r hr hb
        have hq' : rowPk new.cols pkc r = q := by simpa using hb
        exact hqo ((mem_snapPks pkc old q hocne).2
          ⟨r, (List.mem_filter.1 hr).1, by rw [hcols]; exact hq'⟩)
      have hg : ∀ k ∈ (snapPks pkc new).filter (fun k => !((snapPks pkc old).contains k)),
          rowPk new.cols pkc
            (payloadToRow new.cols (rowToDict new.cols (firstRowFor pkc new k))) = k := by
        intro k hk
        exact insRow_pk pkc new k (List.mem_filter.1 hk).1
      have hinsf := find?_map_key new.cols pkc q
        (fun k => payloadToRow new.cols (rowToDict new.cols (firstRowFor pkc new k))) _ hg
      rw [find?_beq_self q _ hqi] at hinsf
      rw [hfiltnone, hinsf, Option.none_or]
      show some (rowView new.cols (updFun new.cols pkc ups
          (payloadToRow new.cols (rowToDict new.cols (firstRowFor pkc new q))))) =
        some (rowView new.cols (firstRowFor pkc new q))
      have hskip : ∀ ch ∈ ups, ch.primary_key_value ≠ rowPk new.cols pkc
          (payloadToRow new.cols (rowToDict new.cols (firstRowFor pkc new q))) := by
        intro ch hch
        rw [insRow_pk pkc new q hqn]
        intro hcq
        have hsub := updatesFor_pks_sublist pkc old new src _ ups hu
        have hmemc : ch.primary_key_value ∈ commonPks pkc old new :=
          hsub.subset (List.mem_map.2 ⟨ch, hch, rfl⟩)
        rw [hcq] at hmemc
        unfold commonPks at hmemc
        exact hqo (List.mem_filter.1 hmemc).1
      rw [updFun_skip new.cols pkc ups _ hskip]
      refine congrArg some ?_
      exact rowView_payloadToRow_zip new.cols (firstRowFor pkc new q)
  · -- key absent from the new snapshot: deleted (or never present) on both sides
    have hnew : new.rows.find? (fun r => rowPk new.cols pkc r == q) = none :=
      find?_pk_eq_none pkc new q hcne hqn
    have hfiltnone : (old.rows.filter (fun r =>
        !(((snapPks pkc old).filter (fun k => !((snapPks pkc new).contains k))).contains
          (rowPk new.cols pkc r)))).find?
        (fun r => rowPk new.cols pkc r == q) = none := by
      rw [List.find?_eq_none]
      intro r hr hb
      have hq' : rowPk new.cols pkc r = q := by simpa using hb
      have hrold := (List.mem_filter.1 hr).1
      have hPr := (List.mem_filter.1 hr).2
      have hqold : q ∈ snapPks pkc old := (mem_snapPks pkc old q hocne).2
        ⟨r, hrold, by rw [hcols]; exact hq'⟩
      have hdelk : q ∈ (snapPks pkc old).filter
          (fun k => !((snapPks pkc new).contains k)) := by
        refine List.mem_filter.2 ⟨hqold, ?_⟩
        show (!((snapPks pkc new).contains q)) = true
        rw [(contains_eq_false_iff _ _).2 hqn]
        rfl
      have hcont : ((snapPks pkc old).filter
          (fun k => !((snapPks pkc new).contains k))).contains q = true :=
        List.elem_eq_true_of_mem hdelk
      rw [hq', hcont] at hPr
      cases hPr
    have hinsnone : (((snapPks pkc new).filter
        (fun k => !((snapPks pkc old).contains k))).map
        (fun k => payloadToRow new.cols (rowToDict new.cols (firstRowFor pkc new k)))).find?
        (fun r => rowPk new.cols pkc r == q) = none := by
      rw [List.find?_eq_none]
      intro r hr hb
      obtain ⟨k, hk, hkr⟩ := List.mem_map.1 hr
      have hkpk : rowPk new.cols pkc r = k := by
        rw [← hkr]
        exact insRow_pk pkc new k (List.mem_filter.1 hk).1
      rw [hkpk] at hb
      have hkq : k = q := by simpa using hb
      exact hqn (hkq ▸ (List.mem_filter.1 hk).1)
    rw [hfiltnone, hinsnone, hnew]
    rfl

/-- **C2.** Detector soundness (spec §5): for snapshots over the same
column list, with distinct column labels, rectangular rows, and the
configured primary-key column among the columns, applying the change list
returned by `detect_changes` to the old snapshot — removing the keyed rows
for each DELETE, appending the payload row for each INSERT, overwriting
the delta columns of the keyed rows for each UPDATE — yields a snapshot
equal to the new one keyed by string-cast primary key, with string-cast
equality per cell. -/
theorem C2_detector_soundness (pkc : String) (old new : Snapshot) (src : Source)
    (chs : List Change)
    (hcols : old.cols = new.cols) (hnd : new.cols.Nodup) (hpkc : pkc ∈ new.cols)
    (hwfo : old.WF) (hwfn : new.WF)
    (hdet : detect_changes pkc old new src = .ok chs) :
    snapEquiv pkc (applyChangesSpec pkc old chs) new := by
  have hcne : new.cols ≠ [] := by
    intro h
    rw [h] at hpkc
    exact absurd hpkc (List.not_mem_nil _)
  have hocne : old.cols ≠ [] := by
    rw [hcols]
    exact hcne
  unfold detect_changes at hdet
  by_cases hE : (old.isEmpty && new.isEmpty) = true
  · rw [if_pos hE] at hdet
    injection hdet with hchs
    subst hchs
    rw [Bool.and_eq_true] at hE
    have hor : old.rows = [] := by
      have h := hE.1
      unfold Snapshot.isEmpty at h
      rw [Bool.or_eq_true] at h
      rcases h with h | h
      · exact List.isEmpty_iff.1 h
      · exact absurd (List.isEmpty_iff.1 h) hocne
    have hnr : new.rows = [] := by
      have h := hE.2
      unfold Snapshot.isEmpty at h
      rw [Bool.or_eq_true] at h
      rcases h with h | h
      · exact List.isEmpty_iff.1 h
      · exact absurd (List.isEmpty_iff.1 h) hcne
    refine ⟨?_, ?_⟩
    · show old.cols = new.cols
      exact hcols
    · intro q
      unfold pkView applyChangesSpec
      simp [hor, hnr]
  · rw [if_neg hE] at hdet
    by_cases hO : (!old.isEmpty && !(old.cols.contains pkc)) = true
    · rw [if_pos hO] at hdet
      cases hdet
    · rw [if_neg hO] at hdet
      by_cases hN : (!new.isEmpty && !(new.cols.contains pkc)) = true
      · rw [if_pos hN] at hdet
        cases hdet
      · rw [if_neg hN] at hdet
        cases hu : updatesFor pkc old new src (commonPks pkc old new) with
        | error e =>
          rw [hu] at hdet
          cases hdet
        | ok ups =>
          simp only [hu, Except.ok.injEq] at hdet
          subst hdet
          have hup : ∀ ch ∈ ups, ch.operation = .UPDATE :=
            updatesFor_ops pkc old new src (commonPks pkc old new) ups hu
          have hins : ∀ ch ∈ detectInserts pkc old new src,
              ch.operation = .INSERT := by
            intro ch hch
            unfold detectInserts at hch
            obtain ⟨k, hk, hkch⟩ := List.mem_map.1 hch
            rw [← hkch]
          have h1 : (applyChangesSpec pkc old (detectDeletes pkc old new src)).rows =
              old.rows.filter (fun r =>
                !(((snapPks pkc old).filter
                  (fun k => !((snapPks pkc new).contains k))).contains
                  (rowPk old.cols pkc r))) :=
            apply_deletes pkc src _ old
          rw [hcols] at h1
          have hc1 : (applyChangesSpec pkc old (detectDeletes pkc old new src)).cols
              = new.cols := by
            rw [applyChangesSpec_cols]
            exact hcols
          have h2 := apply_inserts pkc (detectInserts pkc old new src) hins
            (applyChangesSpec pkc old (detectDeletes pkc old new src))
          rw [hc1, h1] at h2
          have hinsmap : (detectInserts pkc old new src).map
              (fun ch => payloadToRow new.cols ch.data) =
              ((snapPks pkc new).filter (fun k => !((snapPks pkc old).contains k))).map
                (fun k => payloadToRow new.cols
                  (rowToDict new.cols (firstRowFor pkc new k))) := by
            have hd : detectInserts pkc old new src =
                ((snapPks pkc new).filter (fun k => !((snapPks pkc old).contains k))).map
                  (fun k => (⟨.INSERT, k, src,
                    rowToDict new.cols (firstRowFor pkc new k)⟩ : Change)) := rfl
            rw [hd, List.map_map]
            rfl
          rw [hinsmap] at h2
          have h3 := apply_updates pkc ups hup
            (applyChangesSpec pkc (applyChangesSpec pkc old
              (detectDeletes pkc old new src)) (detectInserts pkc old new src))
          rw [applyChangesSpec_cols, hc1, h2] at h3
          rw [applyChangesSpec_append, applyChangesSpec_append]
          have hc3 : (applyChangesSpec pkc (applyChangesSpec pkc (applyChangesSpec pkc old
              (detectDeletes pkc old new src)) (detectInserts pkc old new src)) ups).cols
              = new.cols := by
            rw [applyChangesSpec_cols, applyChangesSpec_cols]
            exact hc1
          refine ⟨hc3, ?_⟩
          intro q
          unfold pkView
          rw [hc3, h3]
          exact pkView_detect_eq pkc old new src ups hcols hnd hpkc hwfo hu q

/-- Old snapshot of the C2 witness. -/
def c2Old : Snapshot := ⟨["id", "v"], [[.text "1", .text "a"], [.text "2", .text "b"]]⟩

/-- New snapshot of the C2 witness. -/
def c2New : Snapshot := ⟨["id", "v"], [[.text "1", .text "c"], [.text "3", .text "d"]]⟩

/-- The change list `detect_changes` returns on the C2 witness snapshots:
one DELETE, one INSERT, one UPDATE. -/
def c2Chs : List Change :=
  [⟨.DELETE, "2", .sheets, []⟩,
   ⟨.INSERT, "3", .sheets, [("id", .text "3"), ("v", .text "d")]⟩,
   ⟨.UPDATE, "1", .sheets, [("v", .text "c")]⟩]

/-- Witness for C2 at concrete snapshots exercising all three operations:
the hypotheses hold, the detector returns `c2Chs`, and applying it to the
old snapshot matches the new one. -/
theorem C2_detector_soundness_witness :
    c2Old.cols = c2New.cols ∧ c2New.cols.Nodup ∧ "id" ∈ c2New.cols ∧
    c2Old.WF ∧ c2New.WF ∧
    detect_changes "id" c2Old c2New .sheets = .ok c2Chs ∧
    snapEquiv "id" (applyChangesSpec "id" c2Old c2Chs) c2New :=
  ⟨rfl, by decide, by decide,
   (by decide : ∀ r ∈ c2Old.rows, r.length = c2Old.cols.length),
   (by decide : ∀ r ∈ c2New.rows, r.length = c2New.cols.length),
   by rfl,
   C2_detector_soundness "id" c2Old c2New .sheets c2Chs rfl (by decide) (by decide)
     (by decide : ∀ r ∈ c2Old.rows, r.length = c2Old.cols.length)
     (by decide : ∀ r ∈ c2New.rows, r.length = c2New.cols.length)
     (by rfl)⟩

end SheetSQL
